import Mathlib

set_option maxRecDepth 8000

namespace PhishGuard

/-!  Shallow embedding of the PhishGuard scoring engine (`src/App.tsx`).

Texts are `String`s, handled as their `List Char` data.  JS numbers that the
engine feeds through exact arithmetic (rule weights, feature sums, ratios)
are modelled as `Nat`/`ℚ`; the sigmoid and the blended score live in `ℝ`.
JS `toLowerCase` is modelled on the ASCII letters (the only characters the
rule patterns and keyword tables distinguish).  -/

/-- ASCII uppercase letter (JS class `[A-Z]` without the `i` flag). -/
def isUpperAZ (c : Char) : Bool := decide (65 ≤ c.toNat ∧ c.toNat ≤ 90)

/-- ASCII lowercase letter. -/
def isLowerAZ (c : Char) : Bool := decide (97 ≤ c.toNat ∧ c.toNat ≤ 122)

/-- ASCII letter (JS class `[A-Z]` under the `i` flag). -/
def isLetterAZ (c : Char) : Bool := isUpperAZ c || isLowerAZ c

/-- ASCII digit (JS `\d`). -/
def isDigit09 (c : Char) : Bool := decide (48 ≤ c.toNat ∧ c.toNat ≤ 57)

/-- JS regex word character `[A-Za-z0-9_]`, the class behind `\b`. -/
def isWordChar (c : Char) : Bool := isLetterAZ c || isDigit09 c || c == '_'

/-- JS whitespace (`\s`): space, tab, line terminators, and the Unicode
space separators JS includes. -/
def isJsSpace (c : Char) : Bool :=
  c == ' ' || c == '\t' || c == '\n' || c == '\r' ||
  c.toNat == 11 || c.toNat == 12 || c.toNat == 0xa0 || c.toNat == 0x1680 ||
  decide (0x2000 ≤ c.toNat ∧ c.toNat ≤ 0x200a) ||
  c.toNat == 0x2028 || c.toNat == 0x2029 || c.toNat == 0x202f ||
  c.toNat == 0x205f || c.toNat == 0x3000 || c.toNat == 0xfeff

/-- JS `String.prototype.toLowerCase`, modelled on ASCII. -/
def lowerChar (c : Char) : Char :=
  if isUpperAZ c then Char.ofNat (c.toNat + 32) else c

/-- The lowercased character data of a text (`text.toLowerCase()`). -/
def lowerData (t : String) : List Char := t.data.map lowerChar

/-- The source's symbol class from `extractMLFeatures` (the bracket class
listing `! @ # $ % ^ & * ( ) _ + ~ \x60 | curly brackets [ ] : ; ? > < , .`
and then an escaped slash, a dash and `=`).  The trailing slash-dash-equals
is a character *range* from `/` (0x2f) to `=` (0x3d), so the class also
contains the digits. -/
def isSymbolChar (c : Char) : Bool :=
  c == '!' || c == '@' || c == '#' || c == '$' || c == '%' || c == '^' ||
  c == '&' || c == '*' || c == '(' || c == ')' || c == '_' || c == '+' ||
  c == '~' || c == '`' || c == '|' || c == '\x7d' || c == '\x7b' ||
  c == '[' || c == ']' || c == ':' || c == ';' || c == '?' || c == '>' ||
  c == '<' || c == ',' || c == '.' || decide (47 ≤ c.toNat ∧ c.toNat ≤ 61)

/-- Regular expressions, covering exactly the constructs the source's rule
patterns use: character classes, word-boundary assertions, alternation,
concatenation and Kleene star (bounded repetitions are unrolled). -/
inductive RE where
  | eps
  | cls (p : Char → Bool)
  | wb
  | alt (a b : RE)
  | cat (a b : RE)
  | star (a : RE)

/-- Whether an optional character is a word character (`none` stands for
the edge of the string, which is not a word character). -/
def isWordO : Option Char → Bool
  | some c => isWordChar c
  | none => false

/-- JS `\b` at the state (previous character, remaining suffix). -/
def atBoundary (prev : Option Char) (rest : List Char) : Bool :=
  isWordO prev != isWordO rest.head?

/-- Size of a regular expression, used to compute a sufficient fuel. -/
def reSize : RE → Nat
  | .eps => 1
  | .cls _ => 1
  | .wb => 1
  | .alt a b => reSize a + reSize b + 1
  | .cat a b => reSize a + reSize b + 1
  | .star a => reSize a + 1

/-- All states (previous character, remaining suffix) at which `re` can stop
matching from the given state, in JS backtracking order (left alternative
first, star greedy).  `fuel` bounds the recursion; callers pass `matchFuel`,
which is large enough for every pattern in the rule table (a star iteration
must consume at least one character, which the `filter` enforces; none of the
source's patterns has a nullable star body, so the matched language is
unchanged). -/
def endsF : Nat → RE → Option Char → List Char → List (Option Char × List Char)
  | 0, _, _, _ => []
  | _ + 1, .eps, prev, rest => [(prev, rest)]
  | _ + 1, .cls p, _, rest =>
    match rest with
    | [] => []
    | c :: r => if p c then [(some c, r)] else []
  | _ + 1, .wb, prev, rest => if atBoundary prev rest then [(prev, rest)] else []
  | fuel + 1, .alt a b, prev, rest => endsF fuel a prev rest ++ endsF fuel b prev rest
  | fuel + 1, .cat a b, prev, rest =>
    (endsF fuel a prev rest).flatMap fun st => endsF fuel b st.1 st.2
  | fuel + 1, .star a, prev, rest =>
    ((endsF fuel a prev rest).filter fun st => st.2.length < rest.length).flatMap
      (fun st => endsF fuel (.star a) st.1 st.2) ++ [(prev, rest)]

/-- Scan the suffixes left to right; at the first state where the pattern
matches, return the length of the text remaining after the match (from which
the match's end position is recovered). -/
def searchAux (fuel : Nat) (re : RE) : Option Char → List Char → Option Nat
  | prev, [] =>
    match endsF fuel re prev [] with
    | st :: _ => some st.2.length
    | [] => none
  | prev, c :: r =>
    match endsF fuel re prev (c :: r) with
    | st :: _ => some st.2.length
    | [] => searchAux fuel re (some c) r

/-- Move to position `k` of the text, keeping the previous character for
`\b`; `none` when `k` is past the end (JS: `lastIndex` greater than the
length means no match). -/
def advanceTo : Nat → Option Char → List Char → Option (Option Char × List Char)
  | 0, prev, rest => some (prev, rest)
  | _ + 1, _, [] => none
  | k + 1, _, c :: r => advanceTo k (some c) r

/-- Fuel sufficient for `endsF` on the source's patterns. -/
def matchFuel (re : RE) (s : List Char) : Nat := (s.length + 2) * (reSize re + 2)

/-- JS `regex.test(s)` for a `g`-flagged regex: search for the leftmost match
starting at or after `lastIndex`; on success return `true` and the match's
end as the new `lastIndex`, on failure `false` and `0` (JS resets
`lastIndex` to `0` when `test` fails). -/
def testR (re : RE) (s : List Char) (lastIndex : Nat) : Bool × Nat :=
  match advanceTo lastIndex none s with
  | none => (false, 0)
  | some (prev, rest) =>
    match searchAux (matchFuel re s) re prev rest with
    | some remaining => (true, s.length - remaining)
    | none => (false, 0)

/-- Concatenation of a list of regexes. -/
def rcat : List RE → RE
  | [] => .eps
  | r :: rs => .cat r (rcat rs)

/-- Left-first alternation of a nonempty list of regexes. -/
def ralt (r : RE) : List RE → RE
  | [] => r
  | s :: rs => .alt r (ralt s rs)

/-- Case-insensitive literal character (every source rule has the `i` flag). -/
def ciChar (c : Char) : RE := .cls fun x => lowerChar x == lowerChar c

/-- Case-insensitive literal string. -/
def rstr (w : String) : RE := rcat (w.data.map ciChar)

/-- `r?` (greedy). -/
def ropt (r : RE) : RE := .alt r .eps

/-- `r+`. -/
def rplus (r : RE) : RE := .cat r (.star r)

/-- `\b(w1|w2|…)\b` over literal words. -/
def wordAlt (w : String) (ws : List String) : RE :=
  rcat [.wb, ralt (rstr w) (ws.map rstr), .wb]

/-- `[A-Z]` under the `i` flag. -/
def letterCls : RE := .cls isLetterAZ

/-- `\d`. -/
def digitCls : RE := .cls isDigit09

/-- `\s`. -/
def spaceCls : RE := .cls isJsSpace

/-- `.` (any character but a line terminator; `dotAll` is off). -/
def dotCls : RE :=
  .cls fun c => !(c == '\n' || c == '\r' || c.toNat == 0x2028 || c.toNat == 0x2029)

/-- `[a-z0-9-]` under the `i` flag. -/
def hostCls : RE := .cls fun c => isLetterAZ c || isDigit09 c || c == '-'

/-- `\d{1,3}` (greedy, longest first). -/
def digits13 : RE := .cat digitCls (.cat (ropt digitCls) (ropt digitCls))

/-- `https?:\/\/` -/
def httpRE : RE := rcat [rstr "http", ropt (ciChar 's'), rstr "://"]

/-- The rule categories (the source's closed union of category strings). -/
inductive Category where
  | urgency
  | financial
  | authority
  | suspiciousLinks
  | genericGreeting
  | badGrammar
  | unexpectedReward
  | threat
  | unexpectedAttachment
  | psychologicalTricks
  deriving DecidableEq

/-- One entry of `advancedAnalysisRules`. -/
structure AnalysisRule where
  id : String
  category : Category
  weight : Nat
  regex : RE
  reason : String

/-- `URGENCY_1`. -/
def rURGENCY1 : AnalysisRule :=
  ⟨"URGENCY_1", .urgency, 25,
    wordAlt "urgent" ["immediate action required", "act now", "expiring soon", "final warning"],
    "Creates a false sense of urgency to rush you into making a mistake."⟩

/-- `URGENCY_2`. -/
def rURGENCY2 : AnalysisRule :=
  ⟨"URGENCY_2", .urgency, 15,
    wordAlt "limited time" ["offer expires", "today only"],
    "Pressures you with a time-sensitive deadline."⟩

/-- `FINANCIAL_1`. -/
def rFINANCIAL1 : AnalysisRule :=
  ⟨"FINANCIAL_1", .financial, 20,
    wordAlt "payment" ["invoice", "wire transfer", "refund", "unusual transaction"],
    "Mentions financial transactions to get your attention."⟩

/-- `FINANCIAL_2`. -/
def rFINANCIAL2 : AnalysisRule :=
  ⟨"FINANCIAL_2", .financial, 25,
    wordAlt "credit card" ["bank account", "ssn", "social security", "pin"],
    "Asks for highly sensitive financial or personal information."⟩

/-- `AUTHORITY_1`. -/
def rAUTHORITY1 : AnalysisRule :=
  ⟨"AUTHORITY_1", .authority, 15,
    wordAlt "verify your account" ["account confirmation", "validate your details"],
    "Impersonates a legitimate service asking for verification."⟩

/-- `AUTHORITY_2`. -/
def rAUTHORITY2 : AnalysisRule :=
  ⟨"AUTHORITY_2", .authority, 10,
    wordAlt "IT department" ["help desk", "administrator"],
    "Claims to be from a technical support or authority figure."⟩

/-- `AUTHORITY_3`: the pattern `\b(CEO|CFO|President|Manager)\b` then `.*`
then `(urgent request|wire transfer|gift card)`. -/
def rAUTHORITY3 : AnalysisRule :=
  ⟨"AUTHORITY_3", .authority, 20,
    rcat [.wb, ralt (rstr "CEO") [rstr "CFO", rstr "President", rstr "Manager"], .wb,
      .star dotCls, ralt (rstr "urgent request") [rstr "wire transfer", rstr "gift card"]],
    "Impersonates a high-level executive to pressure you into making a financial transaction (CEO Fraud)."⟩

/-- `AUTHORITY_4`. -/
def rAUTHORITY4 : AnalysisRule :=
  ⟨"AUTHORITY_4", .authority, 15,
    rcat [.wb, ralt (rstr "fedex") [rstr "dhl", rstr "ups", rstr "usps", rstr "postal service"], .wb,
      .star dotCls, ralt (rstr "delivery failed") [rstr "shipping update", rstr "tracking number"]],
    "Impersonates a well-known shipping company with a fake delivery notice."⟩

/-- `LINKS_1`. -/
def rLINKS1 : AnalysisRule :=
  ⟨"LINKS_1", .suspiciousLinks, 35,
    ralt (rstr "bit.ly") [rstr "tinyurl", rstr "t.co", rstr "goo.gl", rstr "ow.ly"],
    "Uses a URL shortener to hide the real, potentially malicious, destination of the link."⟩

/-- `LINKS_2`: `https?:\/\/` then four dot-separated `\d{1,3}` groups. -/
def rLINKS2 : AnalysisRule :=
  ⟨"LINKS_2", .suspiciousLinks, 25,
    rcat [httpRE, digits13, ciChar '.', digits13, ciChar '.', digits13, ciChar '.', digits13],
    "Links directly to an IP address instead of a trusted domain name."⟩

/-- `LINKS_3`: `href\s*=\s*` then a quote, then non-quotes, then `@`. -/
def rLINKS3 : AnalysisRule :=
  ⟨"LINKS_3", .suspiciousLinks, 30,
    rcat [rstr "href", .star spaceCls, ciChar '=', .star spaceCls,
      .cls (fun c => c == '\'' || c == '"'),
      .star (.cls fun c => !(c == '\'' || c == '"')), ciChar '@'],
    "Contains a link with an '@' symbol, a common trick to obscure the true domain."⟩

/-- `LINKS_4`. -/
def rLINKS4 : AnalysisRule :=
  ⟨"LINKS_4", .suspiciousLinks, 20,
    rcat [httpRE, rplus hostCls, ciChar '.',
      ralt (rstr "xyz") [rstr "top", rstr "info", rstr "club", rstr "buzz", rstr "icu"], .wb],
    "Uses a top-level domain (.xyz, .top, etc.) often associated with spam or malicious sites."⟩

/-- `LINKS_5`: `https?:\/\/` then three or more `[a-z0-9-]+\.` segments. -/
def rLINKS5 : AnalysisRule :=
  ⟨"LINKS_5", .suspiciousLinks, 25,
    rcat [httpRE, rplus hostCls, ciChar '.', rplus hostCls, ciChar '.', rplus hostCls, ciChar '.',
      .star (.cat (rplus hostCls) (ciChar '.'))],
    "Uses multiple subdomains, a technique to disguise a phishing domain as a legitimate one (e.g., yourbank.com.security.login.xyz)."⟩

/-- `GREETING_1`: `dear (customer|user|valued member|client)` — no `\b`. -/
def rGREETING1 : AnalysisRule :=
  ⟨"GREETING_1", .genericGreeting, 10,
    .cat (rstr "dear ") (ralt (rstr "customer") [rstr "user", rstr "valued member", rstr "client"]),
    "Uses a generic greeting. Legitimate companies usually use your name."⟩

/-- `GRAMMAR_1`. -/
def rGRAMMAR1 : AnalysisRule :=
  ⟨"GRAMMAR_1", .badGrammar, 5,
    wordAlt "kindly" ["plese", "verry", "congratulationz", "undeliverable"],
    "Contains common spelling or grammatical errors, often found in phishing emails."⟩

/-- `GRAMMAR_2`: `\b[A-Z]{5,}\b` — under its `i` flag the class matches any
ASCII letter, so this fires on any five-letter word of the lowercased text. -/
def rGRAMMAR2 : AnalysisRule :=
  ⟨"GRAMMAR_2", .badGrammar, 5,
    rcat [.wb, letterCls, letterCls, letterCls, letterCls, letterCls, .star letterCls, .wb],
    "Excessive use of capital letters, intended to create unnecessary urgency or importance."⟩

/-- `REWARD_1`. -/
def rREWARD1 : AnalysisRule :=
  ⟨"REWARD_1", .unexpectedReward, 20,
    wordAlt "you have won" ["prize", "lottery", "free gift", "claim your reward", "inheritance"],
    "Promises an unexpected prize or reward to lure you into clicking."⟩

/-- `THREAT_1`. -/
def rTHREAT1 : AnalysisRule :=
  ⟨"THREAT_1", .threat, 25,
    wordAlt "account locked" ["account suspended", "suspicious activity", "unauthorized access", "security alert"],
    "Uses threats about your account security to cause panic."⟩

/-- `ATTACHMENT_1`. -/
def rATTACHMENT1 : AnalysisRule :=
  ⟨"ATTACHMENT_1", .unexpectedAttachment, 20,
    wordAlt "attachment" ["attached document", "invoice attached", "download the file"],
    "References an unexpected attachment, which could contain malware."⟩

/-- `PSYCH_1`. -/
def rPSYCH1 : AnalysisRule :=
  ⟨"PSYCH_1", .psychologicalTricks, 15,
    wordAlt "confidential" ["private", "secret information"],
    "Tries to spark curiosity by mentioning secret or confidential information."⟩

/-- The source's `advancedAnalysisRules` table, in order. -/
def advancedAnalysisRules : List AnalysisRule :=
  [rURGENCY1, rURGENCY2, rFINANCIAL1, rFINANCIAL2, rAUTHORITY1, rAUTHORITY2,
   rAUTHORITY3, rAUTHORITY4, rLINKS1, rLINKS2, rLINKS3, rLINKS4, rLINKS5,
   rGREETING1, rGRAMMAR1, rGRAMMAR2, rREWARD1, rTHREAT1, rATTACHMENT1, rPSYCH1]

/-- One recorded match (`foundFlags` entry): reason, category, rule id. -/
structure Flag where
  reason : String
  category : Category
  id : String
  deriving DecidableEq

/-- Accumulator of the source's `forEach` over the rule table. -/
structure HeurAcc where
  score : Nat
  foundFlags : List Flag
  foundCategories : List Category
  states : List Nat

/-- JS `Set.add` on the category set (membership is what the bonus block reads). -/
def addCat (cats : List Category) (c : Category) : List Category :=
  if cats.contains c then cats else cats ++ [c]

/-- One iteration of the source's `forEach`: test the rule's (stateful,
`g`-flagged) regex against the lowercased text, and on a hit add the weight
and record the flag and category if the rule id is new.  The rule's incoming
`lastIndex` rides along in the pair; the outgoing one is appended to
`states`. -/
def heurStep (lc : List Char) (acc : HeurAcc) (p : AnalysisRule × Nat) : HeurAcc :=
  let res := testR p.1.regex lc p.2
  if res.1 then
    if acc.foundFlags.any (fun f => f.id == p.1.id) then
      ⟨acc.score + p.1.weight, acc.foundFlags, acc.foundCategories, acc.states ++ [res.2]⟩
    else
      ⟨acc.score + p.1.weight, acc.foundFlags ++ [⟨p.1.reason, p.1.category, p.1.id⟩],
        addCat acc.foundCategories p.1.category, acc.states ++ [res.2]⟩
  else ⟨acc.score, acc.foundFlags, acc.foundCategories, acc.states ++ [res.2]⟩

/-- The source's contextual combination bonuses, read off the category set. -/
def bonusScore (cats : List Category) : Nat :=
  (if cats.contains .urgency && cats.contains .financial then 20 else 0) +
  (if cats.contains .threat && cats.contains .suspiciousLinks then 25 else 0) +
  (if cats.contains .authority && cats.contains .financial then 25 else 0) +
  (if cats.contains .authority && cats.contains .urgency then 20 else 0) +
  (if cats.contains .unexpectedAttachment && cats.contains .urgency then 15 else 0) +
  (if cats.contains .threat && cats.contains .authority then 20 else 0)

/-- Result of `performAdvancedHeuristicAnalysis`, plus the regex states
(`lastIndex` of each of the 20 module-level regex objects) after the call. -/
structure HeurResult where
  score : Nat
  foundFlags : List Flag
  states : List Nat
  deriving DecidableEq

/-- The source's `performAdvancedHeuristicAnalysis`: lowercase the text, run
every rule (each with its own persistent `lastIndex`, passed in `sts`),
accumulate weights and flags, add the combination bonuses, clamp with
`Math.min(score, 100)`. -/
def performAdvancedHeuristicAnalysis (t : String) (sts : List Nat) : HeurResult :=
  let lc := lowerData t
  let acc := (advancedAnalysisRules.zip sts).foldl (heurStep lc) ⟨0, [], [], []⟩
  ⟨min (acc.score + bonusScore acc.foundCategories) 100, acc.foundFlags, acc.states⟩

/-- The `lastIndex` values of the 20 rule regexes at module load (all `0`). -/
def freshState : List Nat := List.replicate 20 0

/-- The source's `replace` of the punctuation class (period, comma, `!`,
`?`, `;`, `:`, double quote, apostrophe) by a space. -/
def replacePunct (s : List Char) : List Char :=
  s.map fun c =>
    if c == '.' || c == ',' || c == '!' || c == '?' || c == ';' || c == ':' ||
       c == '"' || c == '\'' then ' ' else c

mutual

/-- JS `split(/\s+/)`: the pieces between maximal whitespace runs, with an
empty leading piece when the text starts with whitespace and an empty
trailing piece when it ends with one.  `cur` is the current piece, reversed. -/
def splitWsAux : List Char → List Char → List String
  | [], cur => [String.mk cur.reverse]
  | c :: rest, cur =>
    if isJsSpace c then String.mk cur.reverse :: splitWsSkip rest
    else splitWsAux rest (c :: cur)

/-- After at least one separator character: skip the rest of the run. -/
def splitWsSkip : List Char → List String
  | [] => [""]
  | c :: rest => if isJsSpace c then splitWsSkip rest else splitWsAux rest [c]

end

/-- JS `str.split(/\s+/)`. -/
def splitWs (s : List Char) : List String := splitWsAux s []

/-- First-occurrence deduplication, as `[...new Set(l)]` produces it;
`seen` are the elements already emitted. -/
def dedupAux {α : Type} [BEq α] : List α → List α → List α
  | [], _ => []
  | a :: rest, seen =>
    if seen.contains a then dedupAux rest seen else a :: dedupAux rest (a :: seen)

/-- JS `String.prototype.includes` on character data. -/
def hasSubstr : List Char → List Char → Bool
  | [], sub => sub.isEmpty
  | c :: rest, sub => sub.isPrefixOf (c :: rest) || hasSubstr rest sub

/-- The source's `mlKeywords` table, in insertion order. -/
def mlKeywords : List (String × ℚ) :=
  [("verify", 0.9), ("password", 0.8), ("username", 0.7), ("ssn", 1.0),
   ("locked", 0.8), ("suspended", 0.8), ("unusual", 0.7), ("activity", 0.6),
   ("login", 0.7), ("confidential", 0.8), ("immediate", 0.8), ("action", 0.6),
   ("required", 0.7), ("winner", 0.9), ("prize", 0.9), ("congratulations", 0.8),
   ("free", 0.7), ("invoice", 0.7), ("payment", 0.8), ("refund", 0.7),
   ("inheritance", 0.9), ("kindly", 0.6), ("wire", 0.9), ("transfer", 0.8),
   ("hello", -0.5), ("team", -0.4), ("update", -0.3), ("meeting", -0.6),
   ("report", -0.5), ("thanks", -0.7), ("sincerely", -0.8),
   ("documentation", -0.6), ("feedback", -0.5), ("reminder", -0.2)]

/-- The source's `mlNgrams` table, in insertion order. -/
def mlNgrams : List (String × ℚ) :=
  [("verify your", 0.9), ("your account", 0.8), ("account is", 0.6),
   ("is locked", 0.9), ("action required", 0.8), ("immediate action", 0.9),
   ("click here", 0.7), ("update your", 0.7), ("credit card", 0.9),
   ("bank account", 0.9), ("dear customer", 0.6), ("social security", 1.0),
   ("final notice", 0.8)]

/-- `mlKeywords[token]`: the keyword weight, when the token is a key. -/
def kwWeight (tok : String) : Option ℚ :=
  (mlKeywords.find? fun kv => kv.1 == tok).map Prod.snd

/-- The source's `MLFeatures`. -/
structure MLFeatures where
  keywordScore : ℚ
  ngramScore : ℚ
  uppercaseRatio : ℚ
  symbolRatio : ℚ
  digitRatio : ℚ
  flaggedWords : List String
  flaggedNgrams : List String
  deriving DecidableEq

/-- The all-zero feature record the empty-input short-circuit returns. -/
def zeroFeatures : MLFeatures := ⟨0, 0, 0, 0, 0, [], []⟩

/-- The token list of a text, as `extractMLFeatures` computes it:
lowercase, replace the punctuation class with spaces, split on whitespace
runs. -/
def tokensOf (t : String) : List String := splitWs (replacePunct (lowerData t))

/-- The deduplicated token list (`[...new Set(tokens)]`), first-occurrence
order preserved. -/
def uniqueTokensOf (t : String) : List String := dedupAux (tokensOf t) []

/-- One step of the keyword loop in `extractMLFeatures`: JS
`if (mlKeywords[token])` (truthy: present and nonzero), add the weight, and
flag the token when its weight exceeds 0.6. -/
def kwStep (acc : ℚ × List String) (tok : String) : ℚ × List String :=
  match kwWeight tok with
  | some w =>
    if w ≠ 0 then (acc.1 + w, if 0.6 < w then acc.2 ++ [tok] else acc.2) else acc
  | none => acc

/-- One step of the phrase loop in `extractMLFeatures`: if the phrase is
contained in the lowercased text, add its weight and record it. -/
def ngStep (lc : List Char) (acc : ℚ × List String) (kv : String × ℚ) : ℚ × List String :=
  if hasSubstr lc kv.1.data then (acc.1 + kv.2, acc.2 ++ [kv.1]) else acc

/-- The source's `extractMLFeatures`: lowercase, replace punctuation with
spaces, split on whitespace, deduplicate the tokens, sum keyword weights
(flagging those above `0.6`), sum the weights of the phrases contained in
the lowercased text, and compute the three character-class ratios over the
*original* text, with the `text.length || 1` division guard. -/
def extractMLFeatures (t : String) : MLFeatures :=
  let lc := lowerData t
  let kw := (uniqueTokensOf t).foldl kwStep (0, [])
  let ng := mlNgrams.foldl (ngStep lc) (0, [])
  let textLength : ℚ := if t.data.length = 0 then 1 else (t.data.length : ℚ)
  { keywordScore := kw.1
    ngramScore := ng.1
    uppercaseRatio := (t.data.countP (fun c => isUpperAZ c) : ℚ) / textLength
    symbolRatio := (t.data.countP (fun c => isSymbolChar c) : ℚ) / textLength
    digitRatio := (t.data.countP (fun c => isDigit09 c) : ℚ) / textLength
    flaggedWords := kw.2
    flaggedNgrams := ng.2 }

/-- The source's `modelWeights` record. -/
structure ModelWeights where
  keywordScore : ℚ
  ngramScore : ℚ
  uppercaseRatio : ℚ
  symbolRatio : ℚ
  digitRatio : ℚ
  bias : ℚ

/-- The fixed simulated-model weights. -/
def modelWeights : ModelWeights := ⟨1.2, 1.5, 5.0, 3.0, 1.5, -2.0⟩

/-- The linear model's logit, as `runAdvancedMLAnalysis` computes it. -/
def logitOf (f : MLFeatures) : ℚ :=
  f.keywordScore * modelWeights.keywordScore + f.ngramScore * modelWeights.ngramScore +
  f.uppercaseRatio * modelWeights.uppercaseRatio + f.symbolRatio * modelWeights.symbolRatio +
  f.digitRatio * modelWeights.digitRatio + modelWeights.bias

/-- The logistic sigmoid, `1 / (1 + e^(-x))`. -/
noncomputable def sigmoid (x : ℝ) : ℝ := 1 / (1 + Real.exp (-x))

/-- The feature half of `runAdvancedMLAnalysis`: the empty-text
short-circuit (`if (!text)`) returns the all-zero record, otherwise the
extracted features. -/
def mlDetails (t : String) : MLFeatures :=
  if t.data.isEmpty then zeroFeatures else extractMLFeatures t

/-- The score half of `runAdvancedMLAnalysis`: `0` for empty text, otherwise
`Math.min(probability * 100, 100)` with `probability` the sigmoid of the
logit. -/
noncomputable def mlScore (t : String) : ℝ :=
  if t.data.isEmpty then 0
  else min (sigmoid (logitOf (extractMLFeatures t)) * 100) 100

/-- `analyzeText`'s blend: `Math.min(100, heuristic * 0.5 + ml * 0.5)`. -/
noncomputable def blendedScore (t : String) (sts : List Nat) : ℝ :=
  min 100 (((performAdvancedHeuristicAnalysis t sts).score : ℝ) * 0.5 + mlScore t * 0.5)

/-- JS `Math.round` (round half up). -/
noncomputable def jsRound (x : ℝ) : ℤ := ⌊x + 1 / 2⌋

/-- The integer score stored in the `Analysis` entity (`Math.round(score)`). -/
noncomputable def roundedScore (t : String) (sts : List Nat) : ℤ :=
  jsRound (blendedScore t sts)

/-- The three risk labels (the emoji suffixes of the source's label strings
are presentational and dropped). -/
inductive RiskLabel where
  | low
  | medium
  | high
  deriving DecidableEq

open Classical in
/-- `analyzeText`'s label ternary, applied to the *unrounded* blended score:
`score > 60 ? High : score > 30 ? Medium : Low`. -/
noncomputable def labelOf (score : ℝ) : RiskLabel :=
  if score > 60 then .high else if score > 30 then .medium else .low

/-- The label of a scoring call. -/
noncomputable def riskLabel (t : String) (sts : List Nat) : RiskLabel :=
  labelOf (blendedScore t sts)

/-- The display name of a category (the source's category strings). -/
def categoryName : Category → String
  | .urgency => "Urgency"
  | .financial => "Financial"
  | .authority => "Authority"
  | .suspiciousLinks => "Suspicious Links"
  | .genericGreeting => "Generic Greeting"
  | .badGrammar => "Bad Grammar"
  | .unexpectedReward => "Unexpected Reward"
  | .threat => "Threat"
  | .unexpectedAttachment => "Unexpected Attachment"
  | .psychologicalTricks => "Psychological Tricks"

/-- The categories of the found flags in first-encounter order, as the
source's `flagsByCategory` object keys them. -/
def catsInOrder (flags : List Flag) : List Category :=
  dedupAux (flags.map fun f => f.category) []

open Classical in
/-- The source's `generateCombinedExplanation`.  It branches strictly on the
final score: under `5` a fixed low-risk message ignoring all evidence;
otherwise a header, the heuristic detections grouped by category, a
linguistic-cues section (flagged phrases truncated to 3, keywords to 4, and
ratio-conditional sentences), and a recommendation tier. -/
noncomputable def generateCombinedExplanation (heuristicResult : HeurResult)
    (mlScoreVal : ℝ) (mlDet : MLFeatures) (finalScore : ℝ) : String :=
  if finalScore < 5 then
    "Overall Assessment: Low Risk\n\nOur analysis did not find any common phishing indicators. However, always remain cautious and verify unexpected requests through official channels."
  else
    let header := "Overall Assessment: " ++
      (if finalScore > 60 then "High Risk" else if finalScore > 30 then "Medium Risk" else "Low Risk") ++
      "\n\nThis content exhibits characteristics of a phishing attempt. We advise caution.\n\n"
    let heurSection :=
      if heuristicResult.foundFlags.length > 0 then
        "Heuristic Analysis (Rule-Based Detections):\n" ++
        String.join ((catsInOrder heuristicResult.foundFlags).map fun c =>
          "‚Ä¢ [" ++ categoryName c ++ "]\n" ++
          String.join ((heuristicResult.foundFlags.filter fun f => f.category == c).map
            fun f => "  - " ++ f.reason ++ "\n"))
      else ""
    let mlSection :=
      if mlDet.flaggedWords.length > 0 ∨ mlDet.flaggedNgrams.length > 0 ∨ mlScoreVal > 20 then
        "\nMachine Learning Analysis (Linguistic & Structural Cues):\n" ++
        (if mlDet.flaggedNgrams.length > 0 then
          "  - Detected suspicious phrases: " ++
            String.intercalate ", " (mlDet.flaggedNgrams.take 3) ++ ".\n" else "") ++
        (if mlDet.flaggedWords.length > 0 then
          "  - Identified high-risk keywords: " ++
            String.intercalate ", " (mlDet.flaggedWords.take 4) ++ ".\n" else "") ++
        (if mlDet.uppercaseRatio > 0.1 then
          "  - Noticed an unusually high amount of capital letters, a common tactic to create false urgency.\n" else "") ++
        (if mlDet.symbolRatio > 0.05 then
          "  - Detected an unusual density of symbols, which can be used to obscure text.\n" else "")
      else ""
    let recommendation := "\nRecommendation:\n" ++
      (if finalScore > 60 then
        "DO NOT click any links, download attachments, or reply. Delete this message immediately. If you are concerned about an account, log in through an official website or app you trust, not through any links provided in this message."
      else if finalScore > 30 then
        "This content has some suspicious elements. Be very careful before proceeding. Double-check the sender's identity and independently verify any requests before taking action."
      else
        "While the risk score is low, one or more potential issues were flagged. It's always best to be cautious with unsolicited messages.")
    header ++ heurSection ++ mlSection ++ recommendation

/-- The explanation of a scoring call, as `analyzeText` assembles it. -/
noncomputable def explanationOf (t : String) (sts : List Nat) : String :=
  generateCombinedExplanation (performAdvancedHeuristicAnalysis t sts) (mlScore t)
    (mlDetails t) (blendedScore t sts)

/-- The `Analysis` entity (the capture timestamp, pure presentation, is
omitted; the label is the enum behind the source's label string). -/
structure Analysis where
  text : String
  score : ℤ
  label : RiskLabel
  explanation : String

/-- The source's `analyzeText` handler: blank input (JS
`!textToAnalyze.trim()`) is rejected with an alert and produces no
`Analysis`; otherwise one entry is built with the rounded score, the label
of the unrounded blend, and the combined explanation.  The second component
is the regex state after the call. -/
noncomputable def analyzeTextModel (t : String) (sts : List Nat) :
    Option (Analysis × List Nat) :=
  if t.data.all isJsSpace then none
  else some (⟨t, roundedScore t sts, riskLabel t sts, explanationOf t sts⟩,
    (performAdvancedHeuristicAnalysis t sts).states)

/-!  Spec-side definitions: the quantities the specification's sentences
name (base rule-weight sum, category presence, cross-category bonuses),
written from the spec's words, to be compared with the engine above. -/

/-- Whether a (rule, lastIndex) pair fires on the lowercased text. -/
def fired (lc : List Char) (p : AnalysisRule × Nat) : Bool :=
  (testR p.1.regex lc p.2).1

/-- Whether a rule's pattern matches the text in a scoring call that starts
from fresh regex state (`lastIndex = 0`), i.e. "the rule matches one or more
times" in the spec's words. -/
def fired0 (t : String) (r : AnalysisRule) : Bool :=
  (testR r.regex (lowerData t) 0).1

/-- The base rule-weight sum: each rule whose pattern fires contributes its
weight exactly once. -/
def heurBase (t : String) (sts : List Nat) : Nat :=
  (((advancedAnalysisRules.zip sts).map
    fun p => if fired (lowerData t) p then p.1.weight else 0)).sum

/-- "The category has at least one matching rule". -/
def catPresent (t : String) (sts : List Nat) (c : Category) : Bool :=
  (advancedAnalysisRules.zip sts).any fun p => fired (lowerData t) p && p.1.category == c

/-- The spec's cross-category bonus table: each of the six bonuses is added
exactly once iff both named categories have at least one matching rule. -/
def bonusSpecTotal (t : String) (sts : List Nat) : Nat :=
  (if catPresent t sts .urgency && catPresent t sts .financial then 20 else 0) +
  (if catPresent t sts .threat && catPresent t sts .suspiciousLinks then 25 else 0) +
  (if catPresent t sts .authority && catPresent t sts .financial then 25 else 0) +
  (if catPresent t sts .authority && catPresent t sts .urgency then 20 else 0) +
  (if catPresent t sts .unexpectedAttachment && catPresent t sts .urgency then 15 else 0) +
  (if catPresent t sts .threat && catPresent t sts .authority then 20 else 0)

/-!  Helper lemmas about the `forEach` fold. -/

lemma rules_ids_nodup : (advancedAnalysisRules.map fun r => r.id).Nodup := by decide

lemma zip_fst_sublist {α β : Type} :
    ∀ (l₁ : List α) (l₂ : List β), ((l₁.zip l₂).map Prod.fst).Sublist l₁
  | [], _ => by simp
  | _ :: _, [] => by simp
  | a :: l₁, b :: l₂ => by simpa using (zip_fst_sublist l₁ l₂).cons₂ a

lemma zip_ids_nodup (sts : List Nat) :
    ((advancedAnalysisRules.zip sts).map fun p => p.1.id).Nodup := by
  have h1 : ((advancedAnalysisRules.zip sts).map fun p => p.1.id)
      = ((advancedAnalysisRules.zip sts).map Prod.fst).map (fun r => r.id) := by
    rw [List.map_map]
    rfl
  rw [h1]
  exact rules_ids_nodup.sublist ((zip_fst_sublist _ _).map _)

lemma addCat_contains (cats : List Category) (c₀ c : Category) :
    ((addCat cats c₀).contains c = true) ↔ (cats.contains c = true ∨ c = c₀) := by
  unfold addCat
  split
  · next h =>
    constructor
    · exact Or.inl
    · rintro (h' | rfl)
      · exact h'
      · exact h
  · next h => simp [List.elem_iff]

/-- Invariant of the source's `forEach` over the rule table: the score is
the running sum of fired weights, the flags are the fired rules' flags in
order (the rule ids being distinct, the dedup guard never blocks), and a
category is collected exactly when one of its rules fired. -/
lemma foldl_heurStep_spec (lc : List Char) :
    ∀ (l : List (AnalysisRule × Nat)) (init : HeurAcc),
      (l.map fun p => p.1.id).Nodup →
      (∀ p ∈ l, ∀ f ∈ init.foundFlags, f.id ≠ p.1.id) →
      (l.foldl (heurStep lc) init).score
          = init.score + (l.map fun p => if fired lc p then p.1.weight else 0).sum
      ∧ (l.foldl (heurStep lc) init).foundFlags
          = init.foundFlags
            ++ (l.filter (fired lc)).map (fun p => (⟨p.1.reason, p.1.category, p.1.id⟩ : Flag))
      ∧ ∀ c, ((l.foldl (heurStep lc) init).foundCategories.contains c = true
          ↔ init.foundCategories.contains c = true
            ∨ ∃ p ∈ l, fired lc p = true ∧ p.1.category = c)
  | [], init, _, _ => by simp
  | p :: l, init, hnd, hdisj => by
    have htail : (l.map fun q => q.1.id).Nodup := (List.nodup_cons.mp hnd).2
    have hhead : p.1.id ∉ l.map fun q => q.1.id := (List.nodup_cons.mp hnd).1
    by_cases h : fired lc p = true
    · have hany : (init.foundFlags.any fun f => f.id == p.1.id) = false := by
        rw [List.any_eq_false]
        intro f hf
        simpa using hdisj p (List.mem_cons_self p l) f hf
      have hstep : heurStep lc init p
          = ⟨init.score + p.1.weight,
             init.foundFlags ++ [⟨p.1.reason, p.1.category, p.1.id⟩],
             addCat init.foundCategories p.1.category,
             init.states ++ [(testR p.1.regex lc p.2).2]⟩ := by
        unfold heurStep
        unfold fired at h
        rw [if_pos h, if_neg (by simp [hany])]
      have hdisj' : ∀ q ∈ l, ∀ f ∈ init.foundFlags ++ [(⟨p.1.reason, p.1.category, p.1.id⟩ : Flag)],
          f.id ≠ q.1.id := by
        intro q hq f hf
        rcases List.mem_append.mp hf with hf' | hf'
        · exact hdisj q (List.mem_cons_of_mem p hq) f hf'
        · have : f = ⟨p.1.reason, p.1.category, p.1.id⟩ := by simpa using hf'
          subst this
          intro hcontra
          apply hhead
          have hid : p.1.id = q.1.id := hcontra
          rw [hid]
          exact List.mem_map_of_mem (fun q => q.1.id) hq
      obtain ⟨ih1, ih2, ih3⟩ := foldl_heurStep_spec lc l (heurStep lc init p) htail
        (by rw [hstep]; exact hdisj')
      rw [List.foldl_cons] at *
      refine ⟨?_, ?_, ?_⟩
      · rw [ih1, hstep]
        simp [h, Nat.add_assoc]
      · rw [ih2, hstep]
        simp [h, List.filter_cons]
      · intro c
        rw [ih3 c, hstep]
        simp only [addCat_contains, List.mem_cons]
        constructor
        · rintro ((hc | rfl) | ⟨q, hq, hfq, hcq⟩)
          · exact Or.inl hc
          · exact Or.inr ⟨p, Or.inl rfl, h, rfl⟩
          · exact Or.inr ⟨q, Or.inr hq, hfq, hcq⟩
        · rintro (hc | ⟨q, (rfl | hq), hfq, hcq⟩)
          · exact Or.inl (Or.inl hc)
          · exact Or.inl (Or.inr hcq.symm)
          · exact Or.inr ⟨q, hq, hfq, hcq⟩
    · have hstep : heurStep lc init p
          = ⟨init.score, init.foundFlags, init.foundCategories,
             init.states ++ [(testR p.1.regex lc p.2).2]⟩ := by
        unfold heurStep
        unfold fired at h
        rw [if_neg (by simpa using h)]
      have hdisj' : ∀ q ∈ l, ∀ f ∈ init.foundFlags, f.id ≠ q.1.id := fun q hq =>
        hdisj q (List.mem_cons_of_mem p hq)
      obtain ⟨ih1, ih2, ih3⟩ := foldl_heurStep_spec lc l (heurStep lc init p) htail
        (by rw [hstep]; exact hdisj')
      rw [List.foldl_cons] at *
      refine ⟨?_, ?_, ?_⟩
      · rw [ih1, hstep]
        simp [h]
      · rw [ih2, hstep]
        simp [h, List.filter_cons]
      · intro c
        rw [ih3 c, hstep]
        constructor
        · rintro (hc | ⟨q, hq, hfq, hcq⟩)
          · exact Or.inl hc
          · exact Or.inr ⟨q, List.mem_cons_of_mem p hq, hfq, hcq⟩
        · rintro (hc | ⟨q, hq, hfq, hcq⟩)
          · exact Or.inl hc
          · rcases List.mem_cons.mp hq with rfl | hq'
            · exact absurd hfq h
            · exact Or.inr ⟨q, hq', hfq, hcq⟩

lemma catPresent_iff (t : String) (sts : List Nat) (c : Category) :
    catPresent t sts c = true
      ↔ ∃ p ∈ advancedAnalysisRules.zip sts, fired (lowerData t) p = true ∧ p.1.category = c := by
  unfold catPresent
  rw [List.any_eq_true]
  constructor
  · rintro ⟨p, hp, hb⟩
    rw [Bool.and_eq_true, beq_iff_eq] at hb
    exact ⟨p, hp, hb.1, hb.2⟩
  · rintro ⟨p, hp, h1, h2⟩
    exact ⟨p, hp, by rw [Bool.and_eq_true, beq_iff_eq]; exact ⟨h1, h2⟩⟩

lemma contains_eq_catPresent (t : String) (sts : List Nat) (c : Category) :
    ((advancedAnalysisRules.zip sts).foldl (heurStep (lowerData t))
        ⟨0, [], [], []⟩).foundCategories.contains c = catPresent t sts c := by
  obtain ⟨-, -, h3⟩ := foldl_heurStep_spec (lowerData t) (advancedAnalysisRules.zip sts)
    ⟨0, [], [], []⟩ (zip_ids_nodup sts) (by intro p _ f hf; simp at hf)
  apply Bool.coe_iff_coe.mp
  rw [h3 c, catPresent_iff]
  simp

/-- The heuristic score is `min(base sum + bonuses, 100)`, the bonuses read
off category presence. -/
lemma perform_score_eq (t : String) (sts : List Nat) :
    (performAdvancedHeuristicAnalysis t sts).score
      = min (heurBase t sts + bonusSpecTotal t sts) 100 := by
  obtain ⟨h1, -, -⟩ := foldl_heurStep_spec (lowerData t) (advancedAnalysisRules.zip sts)
    ⟨0, [], [], []⟩ (zip_ids_nodup sts) (by intro p _ f hf; simp at hf)
  show min (_ + bonusScore _) 100 = _
  rw [h1]
  unfold bonusScore bonusSpecTotal heurBase
  simp only [contains_eq_catPresent, Nat.zero_add]

/-- The evidence list is the fired rules' flags, in rule-table order. -/
lemma perform_flags_eq (t : String) (sts : List Nat) :
    (performAdvancedHeuristicAnalysis t sts).foundFlags
      = ((advancedAnalysisRules.zip sts).filter (fired (lowerData t))).map
          (fun p => (⟨p.1.reason, p.1.category, p.1.id⟩ : Flag)) := by
  obtain ⟨-, h2, -⟩ := foldl_heurStep_spec (lowerData t) (advancedAnalysisRules.zip sts)
    ⟨0, [], [], []⟩ (zip_ids_nodup sts) (by intro p _ f hf; simp at hf)
  show ((advancedAnalysisRules.zip sts).foldl (heurStep (lowerData t))
      ⟨0, [], [], []⟩).foundFlags = _
  rw [h2]
  simp

/-- With fresh regex state the pairing with zero `lastIndex` values is the
rule table itself. -/
lemma zip_fresh :
    advancedAnalysisRules.zip freshState = advancedAnalysisRules.map fun r => (r, 0) := rfl

lemma fired_fresh (t : String) (r : AnalysisRule) :
    fired (lowerData t) (r, 0) = fired0 t r := rfl

/-!  Real-number facts about the sigmoid. -/

lemma exp_pos_real (x : ℝ) : 0 < Real.exp x := Real.exp_pos x

lemma sigmoid_pos (x : ℝ) : 0 < sigmoid x := by
  unfold sigmoid
  positivity

lemma sigmoid_lt_one (x : ℝ) : sigmoid x < 1 := by
  unfold sigmoid
  rw [div_lt_one (by positivity)]
  linarith [Real.exp_pos (-x)]

/-- `sigmoid (-q) < 1 / bound` whenever `exp q` exceeds `bound - 1`. -/
lemma sigmoid_neg_lt (q bound : ℝ) (hb : 0 < bound) (h : bound - 1 < Real.exp q) :
    sigmoid (-q) < 1 / bound := by
  unfold sigmoid
  rw [neg_neg, div_lt_div_iff₀ (by positivity) hb]
  linarith

/-- Lower bound on the exponential via `(1 + q/n)^n ≤ exp q`. -/
lemma exp_lower (q : ℝ) (n : ℕ) (hn : 0 < n) (hq : 0 ≤ q) :
    (1 + q / n) ^ n ≤ Real.exp q := by
  have hqn : 0 ≤ q / n := by positivity
  have h1 : (1 + q / n) ≤ Real.exp (q / n) := by
    have := Real.add_one_le_exp (q / n)
    linarith
  have h2 : (1 + q / n) ^ n ≤ Real.exp (q / n) ^ n :=
    pow_le_pow_left₀ (by linarith) h1 n
  have h3 : Real.exp (q / n) ^ n = Real.exp q := by
    rw [← Real.exp_nat_mul]
    congr 1
    field_simp
  rw [h3] at h2
  exact h2

lemma exp_812_gt : (99 : ℝ) < Real.exp (203 / 25) := by
  have h := exp_lower (203 / 25) 8 (by norm_num) (by norm_num)
  have : (99 : ℝ) < (1 + 203 / 25 / 8) ^ 8 := by norm_num
  linarith

lemma exp_342_gt : (19 : ℝ) < Real.exp (171 / 50) := by
  have h := exp_lower (171 / 50) 16 (by norm_num) (by norm_num)
  have : (19 : ℝ) < (1 + 171 / 50 / 16) ^ 16 := by norm_num
  linarith

/-!  Bounds on the layer scores and the blend. -/

lemma mlScore_nonneg (t : String) : 0 ≤ mlScore t := by
  unfold mlScore
  split
  · norm_num
  · exact le_min (mul_nonneg (sigmoid_pos _).le (by norm_num)) (by norm_num)

lemma mlScore_le_100 (t : String) : mlScore t ≤ 100 := by
  unfold mlScore
  split
  · norm_num
  · exact min_le_right _ _

lemma mlScore_lt_100 (t : String) : mlScore t < 100 := by
  unfold mlScore
  split
  · norm_num
  · have h1 : sigmoid (logitOf (extractMLFeatures t)) * 100 < 100 := by
      have := sigmoid_lt_one ((logitOf (extractMLFeatures t) : ℚ) : ℝ)
      linarith
    exact lt_of_le_of_lt (min_le_left _ _) h1

/-- For nonempty text, the `Math.min` in `runAdvancedMLAnalysis` never
binds: the ML score is exactly `sigmoid(logit) * 100`. -/
lemma mlScore_eq_sig (t : String) (h : t.data.isEmpty = false) :
    mlScore t = sigmoid ((logitOf (extractMLFeatures t) : ℚ) : ℝ) * 100 := by
  unfold mlScore
  rw [if_neg (by simp [h])]
  exact min_eq_left (by have := sigmoid_lt_one ((logitOf (extractMLFeatures t) : ℚ) : ℝ); linarith)

lemma blendedScore_nonneg (t : String) (sts : List Nat) : 0 ≤ blendedScore t sts := by
  unfold blendedScore
  have h1 : (0 : ℝ) ≤ ((performAdvancedHeuristicAnalysis t sts).score : ℝ) := by positivity
  have h2 := mlScore_nonneg t
  exact le_min (by norm_num) (by nlinarith)

lemma blendedScore_le_100 (t : String) (sts : List Nat) : blendedScore t sts ≤ 100 :=
  min_le_left _ _

/-- **C1**  For every input text and regex state, the blended score of a
scoring call lies in `[0, 100]`, the rounded integer score lies in
`[0, 100]`, and every `Analysis` entity `analyzeText` stores carries an
integer score in `[0, 100]`. -/
theorem clamp_invariant (t : String) (sts : List Nat) :
    (0 ≤ blendedScore t sts ∧ blendedScore t sts ≤ 100)
    ∧ (0 ≤ roundedScore t sts ∧ roundedScore t sts ≤ 100)
    ∧ (match analyzeTextModel t sts with
       | none => True
       | some (e, _) => 0 ≤ e.score ∧ e.score ≤ 100) := by
  have hb0 := blendedScore_nonneg t sts
  have hb1 := blendedScore_le_100 t sts
  have hr0 : (0 : ℤ) ≤ roundedScore t sts := by
    unfold roundedScore jsRound
    rw [Int.le_floor]
    push_cast
    linarith
  have hr1 : roundedScore t sts ≤ 100 := by
    unfold roundedScore jsRound
    rw [← Int.lt_add_one_iff, Int.floor_lt]
    push_cast
    linarith
  refine ⟨⟨hb0, hb1⟩, ⟨hr0, hr1⟩, ?_⟩
  by_cases hc : t.data.all isJsSpace
  · simp [analyzeTextModel, hc]
  · simp only [analyzeTextModel, hc, if_false, if_neg]
    exact ⟨hr0, hr1⟩

/-- **C5**  The heuristic score is `min(100, base sum + bonuses)`: the base
sum counts each fired rule's weight once, and each of the six cross-category
bonuses is added exactly once, after the base sum and before the clamp, iff
both of its categories have at least one matching rule (`bonusSpecTotal`
spells out the six pairs and amounts). -/
theorem heuristic_score_decomposition (t : String) (sts : List Nat) :
    (performAdvancedHeuristicAnalysis t sts).score
      = min 100 (heurBase t sts + bonusSpecTotal t sts) := by
  rw [perform_score_eq, Nat.min_comm]

/-- A concrete benign-vocabulary text engineered so the heuristic layer
scores exactly 60 (GREETING_1, GRAMMAR_2, REWARD_1, THREAT_1, no bonus
pair) while the ML layer, fed ten negative keywords, stays under 1. -/
def boundaryText : String :=
  "dear user security alert lottery hello team update meeting report thanks sincerely documentation feedback reminder"

/-- The spec's benign example input. -/
def benignText : String := "Hi team, attaching the Q3 report for your review. Thanks!"

section ConcreteEvaluation

attribute [local semireducible] Rat.add Rat.mul Rat.inv Rat.sub Rat.ofScientific

lemma boundaryText_heur :
    (performAdvancedHeuristicAnalysis boundaryText freshState).score = 60 := by decide

lemma boundaryText_logit : logitOf (extractMLFeatures boundaryText) = -203 / 25 := by decide

lemma benignText_flags :
    (performAdvancedHeuristicAnalysis benignText freshState).foundFlags
      = [⟨rGRAMMAR2.reason, Category.badGrammar, "GRAMMAR_2"⟩] := by decide

lemma benignText_heur :
    (performAdvancedHeuristicAnalysis benignText freshState).score = 5 := by decide

lemma benignText_logit : logitOf (extractMLFeatures benignText) = -171 / 50 := by decide

lemma empty_features : extractMLFeatures "" = zeroFeatures := by decide

lemma kwWeight_verify : (kwWeight "verify").getD 0 = 9 / 10 := by decide

end ConcreteEvaluation

/-- **C2** (code bug)  The module-level rule regexes carry the `g` flag, so
`regex.test` advances and keeps `lastIndex` between scoring calls.  On the
input `"urgent"` the first call scores 30 (URGENCY_1 and — via its
case-insensitive `[A-Z]{5,}` class — GRAMMAR_2 both fire, leaving their
`lastIndex` at 6); the immediately following call on the identical text
scores 0, and the blended scores of the two calls differ, contradicting the
claimed purity/idempotence. -/
theorem regex_state_breaks_idempotence :
    (performAdvancedHeuristicAnalysis "urgent" freshState).score = 30
    ∧ (performAdvancedHeuristicAnalysis "urgent"
        (performAdvancedHeuristicAnalysis "urgent" freshState).states).score = 0
    ∧ blendedScore "urgent" freshState
        ≠ blendedScore "urgent" (performAdvancedHeuristicAnalysis "urgent" freshState).states := by
  have h1 : (performAdvancedHeuristicAnalysis "urgent" freshState).score = 30 := by decide
  have h2 : (performAdvancedHeuristicAnalysis "urgent"
      (performAdvancedHeuristicAnalysis "urgent" freshState).states).score = 0 := by decide
  refine ⟨h1, h2, ?_⟩
  unfold blendedScore
  rw [h1, h2]
  have hml0 := mlScore_nonneg "urgent"
  have hml1 := mlScore_lt_100 "urgent"
  have e1 : min (100 : ℝ) ((30 : ℕ) * 0.5 + mlScore "urgent" * 0.5)
      = (30 : ℕ) * 0.5 + mlScore "urgent" * 0.5 := by
    rw [min_eq_right]
    push_cast
    linarith
  have e2 : min (100 : ℝ) ((0 : ℕ) * 0.5 + mlScore "urgent" * 0.5)
      = (0 : ℕ) * 0.5 + mlScore "urgent" * 0.5 := by
    rw [min_eq_right]
    push_cast
    linarith
  rw [e1, e2]
  intro heq
  push_cast at heq
  linarith

/-- Counting a distinguished rule through a predicate, given distinct ids. -/
lemma countP_eq_of_nodup_ids : ∀ (l : List AnalysisRule),
    ((l.map fun q => q.id).Nodup) → ∀ (r : AnalysisRule), r ∈ l → ∀ (p : AnalysisRule → Bool),
    (l.countP fun q => p q && (q.id == r.id)) = if p r then 1 else 0
  | [], _, r, hr, _ => absurd hr (List.not_mem_nil r)
  | a :: l, hnd, r, hr, p => by
    rw [List.countP_cons]
    rcases List.mem_cons.mp hr with rfl | hr'
    · have hz : (l.countP fun q => p q && (q.id == r.id)) = 0 := by
        rw [List.countP_eq_zero]
        intro q hq hb
        rw [Bool.and_eq_true, beq_iff_eq] at hb
        apply (List.nodup_cons.mp hnd).1
        have h2 := List.mem_map_of_mem (fun q => q.id) hq
        simp only at h2 ⊢
        rw [← hb.2]
        exact h2
      rw [hz]
      by_cases hp : p r = true
      · simp [hp]
      · simp [hp]
    · have hne : (a.id == r.id) = false := by
        rw [beq_eq_false_iff_ne]
        intro he
        apply (List.nodup_cons.mp hnd).1
        have h2 := List.mem_map_of_mem (fun q => q.id) hr'
        simp only at h2 ⊢
        rw [he]
        exact h2
      rw [countP_eq_of_nodup_ids l (List.nodup_cons.mp hnd).2 r hr' p]
      simp [hne]

/-- The base sum with fresh regex state, expressed rule by rule. -/
lemma heurBase_fresh (t : String) :
    heurBase t freshState
      = (advancedAnalysisRules.map fun r => if fired0 t r then r.weight else 0).sum := by
  unfold heurBase
  rw [zip_fresh, List.map_map]
  rfl

/-- **C6**  Within a single scoring call (fresh regex state), a rule whose
pattern matches the text — however many times it matches — contributes its
weight to the base sum exactly once (the sum has one summand per rule), and
exactly one `MatchEvidence` entry with its id is recorded; a rule that does
not match contributes no entry. -/
theorem rule_weight_and_evidence_once (t : String) (k : Nat)
    (hk : k < advancedAnalysisRules.length) :
    ((performAdvancedHeuristicAnalysis t freshState).foundFlags.filter
        (fun f => f.id == (advancedAnalysisRules.get ⟨k, hk⟩).id)).length
      = (if fired0 t (advancedAnalysisRules.get ⟨k, hk⟩) then 1 else 0)
    ∧ heurBase t freshState
      = (advancedAnalysisRules.map fun r => if fired0 t r then r.weight else 0).sum := by
  refine ⟨?_, heurBase_fresh t⟩
  have hmem : advancedAnalysisRules.get ⟨k, hk⟩ ∈ advancedAnalysisRules :=
    List.get_mem advancedAnalysisRules k hk
  rw [perform_flags_eq, ← List.countP_eq_length_filter, List.countP_map, List.countP_filter,
    zip_fresh, List.countP_map]
  rw [List.countP_congr (q := fun q => fired0 t q && (q.id == (advancedAnalysisRules.get ⟨k, hk⟩).id))
    (fun a _ => by simp [Function.comp, fired_fresh, Bool.and_comm])]
  exact countP_eq_of_nodup_ids _ rules_ids_nodup _ hmem (fired0 t)

/-- Witness for `rule_weight_and_evidence_once`: the input repeats
`"urgent"` five times (URGENCY_1's pattern matches five times), the rule is
index 0 (URGENCY_1). -/
theorem rule_weight_and_evidence_once_witness :
    0 < advancedAnalysisRules.length
    ∧ (((performAdvancedHeuristicAnalysis "urgent urgent urgent urgent urgent"
            freshState).foundFlags.filter
          (fun f => f.id == (advancedAnalysisRules.get ⟨0, by decide⟩).id)).length
        = (if fired0 "urgent urgent urgent urgent urgent"
              (advancedAnalysisRules.get ⟨0, by decide⟩) then 1 else 0)
      ∧ heurBase "urgent urgent urgent urgent urgent" freshState
        = (advancedAnalysisRules.map fun r =>
            if fired0 "urgent urgent urgent urgent urgent" r then r.weight else 0).sum) :=
  ⟨by decide, rule_weight_and_evidence_once "urgent urgent urgent urgent urgent" 0 (by decide)⟩

/-- **C3** (amended)  The risk label is exactly one of the three values and
is determined by applying the thresholds to the *unrounded* blended score:
at most 30 gives Low, over 30 up to 60 gives Medium, over 60 gives High.
(The source's ternary reads the unrounded score; `Math.round` happens only
when the score is stored.) -/
theorem label_thresholds_unrounded (t : String) (sts : List Nat) :
    (riskLabel t sts = RiskLabel.high ↔ 60 < blendedScore t sts)
    ∧ (riskLabel t sts = RiskLabel.medium
        ↔ 30 < blendedScore t sts ∧ blendedScore t sts ≤ 60)
    ∧ (riskLabel t sts = RiskLabel.low ↔ blendedScore t sts ≤ 30) := by
  unfold riskLabel labelOf
  by_cases h60 : blendedScore t sts > 60
  · rw [if_pos h60]
    exact ⟨⟨fun _ => h60, fun _ => rfl⟩,
      ⟨fun h => by simp at h, fun h => absurd h60 (by linarith [h.2])⟩,
      ⟨fun h => by simp at h, fun h => absurd h60 (by linarith)⟩⟩
  · rw [if_neg h60]
    by_cases h30 : blendedScore t sts > 30
    · rw [if_pos h30]
      exact ⟨⟨fun h => by simp at h, fun h => absurd h h60⟩,
        ⟨fun _ => ⟨h30, by linarith [not_lt.mp h60]⟩, fun _ => rfl⟩,
        ⟨fun h => by simp at h, fun h => absurd h30 (by linarith)⟩⟩
    · rw [if_neg h30]
      exact ⟨⟨fun h => by simp at h, fun h => absurd h h60⟩,
        ⟨fun h => by simp at h, fun h => absurd h.1 h30⟩,
        ⟨fun _ => not_lt.mp h30, fun _ => rfl⟩⟩

/-- **C3** counterexample: `boundaryText`'s blended score lies in
(30, 30.5), so the stored integer score rounds to exactly 30, yet the label
is Medium Risk — the claim predicts Low Risk whenever the rounded score is
30. -/
theorem rounds_to_30_but_labeled_medium_cex :
    roundedScore boundaryText freshState = 30
    ∧ riskLabel boundaryText freshState = RiskLabel.medium := by
  have hheur := boundaryText_heur
  have hlogit := boundaryText_logit
  have hne : boundaryText.data.isEmpty = false := by decide
  have hml : mlScore boundaryText = sigmoid ((-203 / 25 : ℚ) : ℝ) * 100 := by
    rw [mlScore_eq_sig _ hne, hlogit]
  have hcast : (((-203 / 25 : ℚ) : ℝ)) = -(203 / 25 : ℝ) := by norm_num
  have hsig_pos : 0 < sigmoid ((-203 / 25 : ℚ) : ℝ) := sigmoid_pos _
  have hsig_lt : sigmoid ((-203 / 25 : ℚ) : ℝ) < 1 / 100 := by
    rw [hcast]
    exact sigmoid_neg_lt (203 / 25) 100 (by norm_num) (by linarith [exp_812_gt])
  have hblend : blendedScore boundaryText freshState
      = 30 + sigmoid ((-203 / 25 : ℚ) : ℝ) * 50 := by
    unfold blendedScore
    rw [hheur, hml]
    rw [min_eq_right (by push_cast; nlinarith)]
    push_cast
    ring
  constructor
  · unfold roundedScore jsRound
    rw [hblend, Int.floor_eq_iff]
    constructor
    · push_cast
      nlinarith
    · push_cast
      nlinarith
  · have hrw : riskLabel boundaryText freshState
        = labelOf (30 + sigmoid ((-203 / 25 : ℚ) : ℝ) * 50) := by
      unfold riskLabel
      rw [hblend]
    rw [hrw]
    unfold labelOf
    split
    · next hgt => exact absurd hgt (by nlinarith)
    · split
      · rfl
      · next _ hle => exact absurd (by nlinarith : (30 : ℝ) < 30 + sigmoid ((-203 / 25 : ℚ) : ℝ) * 50) hle

/-- **C4** counterexample: on the benign example the heuristic evidence is
*not* empty — GRAMMAR_2 fires, because under its `i` flag `[A-Z]{5,}`
matches any five-letter word of the lowercased text. -/
theorem benign_example_has_evidence_cex :
    (performAdvancedHeuristicAnalysis benignText freshState).foundFlags ≠ [] := by decide

/-- **C4** (amended)  On the benign example exactly one rule matches —
GRAMMAR_2, contributing its weight 5, so the heuristic evidence is the
single Bad Grammar entry — and the blended score is still strictly under 5,
so the explanation is the fixed low-risk message. -/
theorem benign_example_low_score :
    (performAdvancedHeuristicAnalysis benignText freshState).foundFlags
      = [⟨rGRAMMAR2.reason, Category.badGrammar, "GRAMMAR_2"⟩]
    ∧ (performAdvancedHeuristicAnalysis benignText freshState).score = 5
    ∧ blendedScore benignText freshState < 5
    ∧ explanationOf benignText freshState
      = "Overall Assessment: Low Risk\n\nOur analysis did not find any common phishing indicators. However, always remain cautious and verify unexpected requests through official channels." := by
  have hflags := benignText_flags
  have hheur := benignText_heur
  have hlogit := benignText_logit
  have hne : benignText.data.isEmpty = false := by decide
  have hml : mlScore benignText = sigmoid ((-171 / 50 : ℚ) : ℝ) * 100 := by
    rw [mlScore_eq_sig _ hne, hlogit]
  have hcast : (((-171 / 50 : ℚ) : ℝ)) = -(171 / 50 : ℝ) := by norm_num
  have hsig_pos : 0 < sigmoid ((-171 / 50 : ℚ) : ℝ) := sigmoid_pos _
  have hsig_lt : sigmoid ((-171 / 50 : ℚ) : ℝ) < 1 / 20 := by
    rw [hcast]
    exact sigmoid_neg_lt (171 / 50) 20 (by norm_num) (by linarith [exp_342_gt])
  have hblend : blendedScore benignText freshState
      = 5 / 2 + sigmoid ((-171 / 50 : ℚ) : ℝ) * 50 := by
    unfold blendedScore
    rw [hheur, hml]
    rw [min_eq_right (by push_cast; nlinarith)]
    push_cast
    ring
  have hlt : blendedScore benignText freshState < 5 := by
    rw [hblend]
    nlinarith
  refine ⟨hflags, hheur, hlt, ?_⟩
  unfold explanationOf generateCombinedExplanation
  rw [if_pos hlt]

/-- **C7** (amended)  For every *nonempty* input, the ML layer score is
`min(100, sigmoid(logit) · 100)` where the logit is the spec's linear form
over the extracted features with the fixed weights `1.2, 1.5, 5.0, 3.0,
1.5` and bias `-2.0`. -/
theorem ml_score_formula_nonempty (t : String) (h : t ≠ "") :
    mlScore t
      = min 100 ((1 / (1 + Real.exp (-(((extractMLFeatures t).keywordScore * 1.2
          + (extractMLFeatures t).ngramScore * 1.5
          + (extractMLFeatures t).uppercaseRatio * 5.0
          + (extractMLFeatures t).symbolRatio * 3.0
          + (extractMLFeatures t).digitRatio * 1.5 + (-2.0) : ℚ) : ℝ)))) * 100) := by
  have hne : t.data.isEmpty = false := by
    cases hd : t.data with
    | nil => exact absurd (String.ext (hd.trans rfl)) h
    | cons c r => rfl
  unfold mlScore
  rw [if_neg (by simp [hne]), min_comm]
  rfl

/-- Witness for `ml_score_formula_nonempty` at the one-letter input. -/
theorem ml_score_formula_nonempty_witness :
    ("a" : String) ≠ ""
    ∧ mlScore "a"
      = min 100 ((1 / (1 + Real.exp (-(((extractMLFeatures "a").keywordScore * 1.2
          + (extractMLFeatures "a").ngramScore * 1.5
          + (extractMLFeatures "a").uppercaseRatio * 5.0
          + (extractMLFeatures "a").symbolRatio * 3.0
          + (extractMLFeatures "a").digitRatio * 1.5 + (-2.0) : ℚ) : ℝ)))) * 100) :=
  ⟨by decide, ml_score_formula_nonempty "a" (by decide)⟩

/-- **C7** counterexample: at the empty string `runAdvancedMLAnalysis`
short-circuits to score 0, while the claimed formula over the extracted
features (which are all zero, so the logit is the bias −2) gives a strictly
positive value. -/
theorem ml_score_empty_cex :
    mlScore ""
      ≠ min 100 ((1 / (1 + Real.exp (-(((extractMLFeatures "").keywordScore * 1.2
          + (extractMLFeatures "").ngramScore * 1.5
          + (extractMLFeatures "").uppercaseRatio * 5.0
          + (extractMLFeatures "").symbolRatio * 3.0
          + (extractMLFeatures "").digitRatio * 1.5 + (-2.0) : ℚ) : ℝ)))) * 100) := by
  have h0 : mlScore "" = 0 := by
    unfold mlScore
    rw [if_pos (by decide : "".data.isEmpty = true)]
  rw [h0]
  have hpos : (0 : ℝ)
      < min 100 ((1 / (1 + Real.exp (-(((extractMLFeatures "").keywordScore * 1.2
          + (extractMLFeatures "").ngramScore * 1.5
          + (extractMLFeatures "").uppercaseRatio * 5.0
          + (extractMLFeatures "").symbolRatio * 3.0
          + (extractMLFeatures "").digitRatio * 1.5 + (-2.0) : ℚ) : ℝ)))) * 100) :=
    lt_min (by norm_num) (by positivity)
  exact fun heq => absurd heq.symm (ne_of_gt hpos)


/-!  Deduplication facts for the token list (C8). -/

lemma dedupAux_sublist {α : Type} [BEq α] : ∀ (l seen : List α), (dedupAux l seen).Sublist l
  | [], _ => List.nil_sublist []
  | a :: l, seen => by
    unfold dedupAux
    split
    · exact (dedupAux_sublist l seen).cons a
    · exact (dedupAux_sublist l (a :: seen)).cons₂ a

lemma mem_dedupAux {α : Type} [BEq α] [LawfulBEq α] : ∀ (l seen : List α) (x : α),
    x ∈ dedupAux l seen ↔ x ∈ l ∧ x ∉ seen
  | [], seen, x => by simp [dedupAux]
  | a :: l, seen, x => by
    unfold dedupAux
    split
    · next hc =>
      have ha : a ∈ seen := by simpa [List.elem_iff] using hc
      rw [mem_dedupAux l seen x]
      constructor
      · rintro ⟨h1, h2⟩
        exact ⟨List.mem_cons_of_mem a h1, h2⟩
      · rintro ⟨h1, h2⟩
        rcases List.mem_cons.mp h1 with rfl | h1'
        · exact absurd ha h2
        · exact ⟨h1', h2⟩
    · next hc =>
      have ha : a ∉ seen := by simpa [List.elem_iff] using hc
      rw [List.mem_cons, mem_dedupAux l (a :: seen) x]
      constructor
      · rintro (rfl | ⟨h1, h2⟩)
        · exact ⟨List.mem_cons_self _ _, ha⟩
        · refine ⟨List.mem_cons_of_mem a h1, fun hx => h2 (List.mem_cons_of_mem a hx)⟩
      · rintro ⟨h1, h2⟩
        by_cases hxa : x = a
        · exact Or.inl hxa
        · right
          refine ⟨(List.mem_cons.mp h1).resolve_left hxa, fun hx => ?_⟩
          rcases List.mem_cons.mp hx with h | h
          · exact hxa h
          · exact h2 h

lemma dedupAux_nodup {α : Type} [BEq α] [LawfulBEq α] : ∀ (l seen : List α),
    (dedupAux l seen).Nodup
  | [], _ => List.nodup_nil
  | a :: l, seen => by
    unfold dedupAux
    split
    · exact dedupAux_nodup l seen
    · rw [List.nodup_cons]
      refine ⟨fun hmem => ?_, dedupAux_nodup l (a :: seen)⟩
      exact ((mem_dedupAux l (a :: seen) a).mp hmem).2 (List.mem_cons_self a seen)

/-- The keyword fold's score component is the sum of the looked-up weights
(a missing or zero-weight key contributes `0`). -/
lemma kwFold_fst : ∀ (l : List String) (acc : ℚ × List String),
    (l.foldl kwStep acc).1 = acc.1 + (l.map fun tok => (kwWeight tok).getD 0).sum
  | [], acc => by simp
  | tok :: l, acc => by
    rw [List.foldl_cons, kwFold_fst l (kwStep acc tok), List.map_cons, List.sum_cons]
    cases h : kwWeight tok with
    | none => simp [kwStep, h]
    | some w =>
      by_cases hw : w = 0
      · simp [kwStep, h, hw]
      · by_cases hf : (0.6 : ℚ) < w
        · simp only [kwStep, h, hw, hf, ne_eq, not_false_eq_true, if_true, if_pos,
            Option.getD_some]
          ring
        · simp only [kwStep, h, hw, hf, ne_eq, not_false_eq_true, if_true, if_false,
            Option.getD_some]
          ring

lemma keywordScore_eq (t : String) :
    (extractMLFeatures t).keywordScore
      = ((uniqueTokensOf t).map fun tok => (kwWeight tok).getD 0).sum := by
  show ((uniqueTokensOf t).foldl kwStep (0, [])).1 = _
  rw [kwFold_fst]
  simp

lemma sum_map_filter_split (l : List String) (p : String → Bool) (f : String → ℚ) :
    (l.map f).sum = ((l.filter p).map f).sum + ((l.filter fun a => !(p a)).map f).sum := by
  induction l with
  | nil => simp
  | cons a l ih =>
    cases h : p a with
    | true =>
      simp [List.filter_cons, h, ih]
      ring
    | false =>
      simp [List.filter_cons, h, ih]
      ring

lemma filter_beq_eq_singleton {l : List String} {a : String} (h : l.count a = 1) :
    l.filter (· == a) = [a] := by
  have hlen : (l.filter (· == a)).length = 1 := by
    rw [← List.countP_eq_length_filter]
    exact h
  obtain ⟨b, hb⟩ := List.length_eq_one.mp hlen
  have hba : b = a := by
    have : b ∈ l.filter (· == a) := hb ▸ List.mem_singleton_self b
    have := List.of_mem_filter this
    simpa using this
  rw [hb, hba]

/-- **C8**  Tokens are deduplicated, preserving first-occurrence order,
before keyword lookup: the deduplicated token list is a duplicate-free
sublist of the token list, the keyword score sums each *distinct* token's
looked-up weight once, and a text containing the token "verify" three (or
more) times has it exactly once among the deduplicated tokens, so
`keywordScore` receives its weight `0.9` exactly once, not `2.7`. -/
theorem token_dedup_keyword_once (t : String) :
    (uniqueTokensOf t).Sublist (tokensOf t)
    ∧ (uniqueTokensOf t).Nodup
    ∧ (extractMLFeatures t).keywordScore
        = ((uniqueTokensOf t).map fun tok => (kwWeight tok).getD 0).sum
    ∧ (3 ≤ (tokensOf t).count "verify" →
        (uniqueTokensOf t).count "verify" = 1
        ∧ (extractMLFeatures t).keywordScore
            = 0.9 + (((uniqueTokensOf t).filter fun tok => !(tok == "verify")).map
                fun tok => (kwWeight tok).getD 0).sum) := by
  refine ⟨dedupAux_sublist _ _, dedupAux_nodup _ _, keywordScore_eq t, fun h3 => ?_⟩
  have hmem : "verify" ∈ tokensOf t := by
    have : 0 < (tokensOf t).count "verify" := by omega
    exact List.count_pos_iff.mp this
  have hmemu : "verify" ∈ uniqueTokensOf t :=
    (mem_dedupAux _ _ _).mpr ⟨hmem, List.not_mem_nil _⟩
  have hcount : (uniqueTokensOf t).count "verify" = 1 :=
    List.count_eq_one_of_mem (dedupAux_nodup _ _) hmemu
  refine ⟨hcount, ?_⟩
  rw [keywordScore_eq t,
    sum_map_filter_split (uniqueTokensOf t) (· == "verify") (fun tok => (kwWeight tok).getD 0),
    filter_beq_eq_singleton hcount]
  rw [List.map_singleton, List.sum_singleton, kwWeight_verify]
  norm_num

/-- Witness for `token_dedup_keyword_once`: `"verify verify verify"`
contains the token three times. -/
theorem token_dedup_keyword_once_witness :
    3 ≤ (tokensOf "verify verify verify").count "verify"
    ∧ ((uniqueTokensOf "verify verify verify").count "verify" = 1
      ∧ (extractMLFeatures "verify verify verify").keywordScore
          = 0.9 + (((uniqueTokensOf "verify verify verify").filter
              fun tok => !(tok == "verify")).map fun tok => (kwWeight tok).getD 0).sum) :=
  ⟨by decide, (token_dedup_keyword_once "verify verify verify").2.2.2 (by decide)⟩


/-!  The empty-input path (C9). -/

lemma testR_nil_all (re : RE) (h : (testR re [] 0).1 = false) :
    ∀ li, (testR re [] li).1 = false
  | 0 => h
  | _ + 1 => rfl

lemma rules_no_match_nil : ∀ r ∈ advancedAnalysisRules, (testR r.regex [] 0).1 = false := by
  decide

lemma fired_nil (p : AnalysisRule × Nat) (hp : p ∈ advancedAnalysisRules.zip sts) :
    fired (lowerData "") p = false := by
  show (testR p.1.regex [] p.2).1 = false
  exact testR_nil_all p.1.regex (rules_no_match_nil p.1 (List.of_mem_zip hp).1) p.2

lemma heurBase_nil (sts : List Nat) : heurBase "" sts = 0 := by
  unfold heurBase
  apply List.sum_eq_zero
  intro x hx
  obtain ⟨p, hp, rfl⟩ := List.mem_map.mp hx
  rw [fired_nil p hp]
  rfl

lemma catPresent_nil (sts : List Nat) (c : Category) : catPresent "" sts c = false := by
  unfold catPresent
  rw [List.any_eq_false]
  intro p hp
  simp [fired_nil p hp]

lemma perform_nil_score (sts : List Nat) :
    (performAdvancedHeuristicAnalysis "" sts).score = 0 := by
  rw [perform_score_eq, heurBase_nil]
  unfold bonusSpecTotal
  simp [catPresent_nil]

lemma perform_nil_flags (sts : List Nat) :
    (performAdvancedHeuristicAnalysis "" sts).foundFlags = [] := by
  rw [perform_flags_eq]
  have h : (advancedAnalysisRules.zip sts).filter (fired (lowerData "")) = [] := by
    rw [List.filter_eq_nil_iff]
    intro p hp
    simp [fired_nil p hp]
  rw [h]
  rfl

lemma mlScore_nil : mlScore "" = 0 := by
  unfold mlScore
  rw [if_pos (by decide : "".data.isEmpty = true)]

lemma blendedScore_nil (sts : List Nat) : blendedScore "" sts = 0 := by
  unfold blendedScore
  rw [perform_nil_score, mlScore_nil]
  norm_num

/-- **C9**  Scoring the empty string is a defined zero-result path, not an
error: the blend is 0, the stored integer score is 0, the label is Low, the
explanation is the fixed low-risk message, the heuristic layer reports no
evidence, the ML layer short-circuits to score 0 with the all-zero feature
record, and even the direct feature-extraction path (whose ratios divide by
`text.length || 1`) yields all three ratios 0 with no division error. -/
theorem empty_input_zero_path (sts : List Nat) :
    blendedScore "" sts = 0
    ∧ roundedScore "" sts = 0
    ∧ riskLabel "" sts = RiskLabel.low
    ∧ explanationOf "" sts
      = "Overall Assessment: Low Risk\n\nOur analysis did not find any common phishing indicators. However, always remain cautious and verify unexpected requests through official channels."
    ∧ (performAdvancedHeuristicAnalysis "" sts).score = 0
    ∧ (performAdvancedHeuristicAnalysis "" sts).foundFlags = []
    ∧ mlScore "" = 0
    ∧ mlDetails "" = zeroFeatures
    ∧ extractMLFeatures "" = zeroFeatures := by
  have hb := blendedScore_nil sts
  refine ⟨hb, ?_, ?_, ?_, perform_nil_score sts, perform_nil_flags sts, mlScore_nil, rfl,
    empty_features⟩
  · unfold roundedScore jsRound
    rw [hb, Int.floor_eq_iff]
    norm_num
  · unfold riskLabel labelOf
    rw [hb]
    rw [if_neg (by norm_num), if_neg (by norm_num)]
  · unfold explanationOf generateCombinedExplanation
    rw [hb, if_pos (by norm_num)]


/-!  Completeness of the matcher on GRAMMAR_2's pattern (C10): any text
containing a word of five or more letters makes `\\b[A-Z]{5,}\\b` (with the
`i` flag) match. -/

/-- The character just before the suffix after walking through `pre`. -/
def lastO (prev : Option Char) (l : List Char) : Option Char :=
  match l.getLast? with
  | some c => some c
  | none => prev

lemma lastO_cons (prev : Option Char) (c : Char) (l : List Char) :
    lastO prev (c :: l) = lastO (some c) l := by
  unfold lastO
  cases l with
  | nil => rfl
  | cons d l' =>
    rw [List.getLast?_cons_cons]
    cases h : (d :: l').getLast? with
    | none => exact absurd h (by simp)
    | some e => rfl

lemma word_of_letter {c : Char} (h : isLetterAZ c = true) : isWordChar c = true := by
  unfold isWordChar
  rw [h]
  rfl

lemma lowerChar_toNat (c : Char) (h : isUpperAZ c = true) :
    (lowerChar c).toNat = c.toNat + 32 := by
  unfold lowerChar
  rw [if_pos h]
  have hr : 65 ≤ c.toNat ∧ c.toNat ≤ 90 := by simpa [isUpperAZ] using h
  have hv : Nat.isValidChar (c.toNat + 32) := Or.inl (by omega)
  unfold Char.ofNat
  rw [dif_pos hv]
  rfl

lemma lowerChar_isLetter (c : Char) : isLetterAZ (lowerChar c) = isLetterAZ c := by
  by_cases h : isUpperAZ c = true
  · have ht := lowerChar_toNat c h
    have hr : 65 ≤ c.toNat ∧ c.toNat ≤ 90 := by simpa [isUpperAZ] using h
    have l1 : isLetterAZ (lowerChar c) = true := by
      unfold isLetterAZ isUpperAZ isLowerAZ
      rw [ht]
      simp only [Bool.or_eq_true, decide_eq_true_eq]
      omega
    have l2 : isLetterAZ c = true := by
      unfold isLetterAZ
      rw [h]
      rfl
    rw [l1, l2]
  · unfold lowerChar
    rw [if_neg h]

lemma lowerChar_isWord (c : Char) : isWordChar (lowerChar c) = isWordChar c := by
  unfold isWordChar
  rw [lowerChar_isLetter]
  by_cases h : isUpperAZ c = true
  · have ht := lowerChar_toNat c h
    have hr : 65 ≤ c.toNat ∧ c.toNat ≤ 90 := by simpa [isUpperAZ] using h
    have d1 : isDigit09 (lowerChar c) = false := by
      unfold isDigit09
      rw [ht]
      simp only [decide_eq_false_iff_not]
      omega
    have d2 : isDigit09 c = false := by
      unfold isDigit09
      simp only [decide_eq_false_iff_not]
      omega
    have u1 : (lowerChar c == '_') = false := by
      rw [beq_eq_false_iff_ne]
      intro he
      have : (lowerChar c).toNat = 95 := by rw [he]; rfl
      omega
    have u2 : (c == '_') = false := by
      rw [beq_eq_false_iff_ne]
      intro he
      have : c.toNat = 95 := by rw [he]; rfl
      omega
    rw [d1, d2, u1, u2]
  · unfold lowerChar
    rw [if_neg h]

lemma isWordO_map_lower (x : Option Char) : isWordO (x.map lowerChar) = isWordO x := by
  cases x with
  | none => rfl
  | some c => exact lowerChar_isWord c

/-- Larger fuel keeps every reachable end state. -/
lemma endsF_mono : ∀ (f f' : Nat), f ≤ f' → ∀ (re : RE) (prev : Option Char)
    (rest : List Char) (st : Option Char × List Char),
    st ∈ endsF f re prev rest → st ∈ endsF f' re prev rest
  | 0, _, _, _, _, _, _, h => by simp [endsF] at h
  | _ + 1, 0, hle, _, _, _, _, _ => by omega
  | f + 1, f' + 1, hle, re, prev, rest, st, h => by
    have hf : f ≤ f' := by omega
    cases re with
    | eps => exact h
    | cls p =>
      simp only [endsF] at h ⊢
      exact h
    | wb => exact h
    | alt a b =>
      simp only [endsF] at h ⊢
      rcases List.mem_append.mp h with h' | h'
      · exact List.mem_append.mpr (Or.inl (endsF_mono f f' hf a prev rest st h'))
      · exact List.mem_append.mpr (Or.inr (endsF_mono f f' hf b prev rest st h'))
    | cat a b =>
      simp only [endsF] at h ⊢
      obtain ⟨mid, hmid, hst⟩ := List.mem_flatMap.mp h
      exact List.mem_flatMap.mpr ⟨mid, endsF_mono f f' hf a prev rest mid hmid,
        endsF_mono f f' hf b mid.1 mid.2 st hst⟩
    | star a =>
      simp only [endsF] at h ⊢
      rcases List.mem_append.mp h with h' | h'
      · obtain ⟨mid, hmid, hst⟩ := List.mem_flatMap.mp h'
        have hmid' := List.mem_filter.mp hmid
        refine List.mem_append.mpr (Or.inl (List.mem_flatMap.mpr ⟨mid, ?_, ?_⟩))
        · exact List.mem_filter.mpr ⟨endsF_mono f f' hf a prev rest mid hmid'.1, hmid'.2⟩
        · exact endsF_mono f f' hf (.star a) mid.1 mid.2 st hst
      · exact List.mem_append.mpr (Or.inr h')

/-- The greedy star over the letter class can consume a whole letter run. -/
lemma star_letters_mem : ∀ (w post : List Char) (prev : Option Char) (g : Nat),
    (∀ c ∈ w, isLetterAZ c = true) → 2 * w.length + 1 ≤ g →
    (lastO prev w, post) ∈ endsF g (.star letterCls) prev (w ++ post)
  | [], post, prev, g, _, hg => by
    obtain ⟨g', rfl⟩ : ∃ h, g = h + 1 := ⟨g - 1, by omega⟩
    simp only [endsF, lastO, List.getLast?_nil, List.nil_append]
    exact List.mem_append.mpr (Or.inr (List.mem_singleton_self _))
  | c :: w, post, prev, g, hw, hg => by
    obtain ⟨g', rfl⟩ : ∃ h, g = h + 1 := ⟨g - 1, by simp at hg; omega⟩
    rw [lastO_cons]
    simp only [endsF, List.cons_append]
    refine List.mem_append.mpr (Or.inl (List.mem_flatMap.mpr ⟨(some c, w ++ post), ?_, ?_⟩))
    · refine List.mem_filter.mpr ⟨?_, by simp⟩
      obtain ⟨g'', rfl⟩ : ∃ h, g' = h + 1 := ⟨g' - 1, by simp at hg; omega⟩
      simp only [letterCls, endsF, hw c (List.mem_cons_self c w), if_true]
      exact List.mem_singleton_self _
    · exact star_letters_mem w post (some c) g'
        (fun d hd => hw d (List.mem_cons_of_mem c hd)) (by simp at hg ⊢; omega)


lemma isWordO_lastO_letters (prevC : Char) (w : List Char) (hp : isLetterAZ prevC = true)
    (hw : ∀ c ∈ w, isLetterAZ c = true) : isWordO (lastO (some prevC) w) = true := by
  unfold lastO
  cases hl : w.getLast? with
  | none => exact word_of_letter hp
  | some c => exact word_of_letter (hw c (List.mem_of_mem_getLast? hl))

/-- After the five mandatory letters, `[A-Z]*\\b` (with `rcat`'s trailing
`eps`) consumes the rest of the letter run and stops at the boundary. -/
lemma g2_tail_mem (w post : List Char) (prev : Option Char) (g : Nat)
    (hw : ∀ c ∈ w, isLetterAZ c = true)
    (hword : isWordO (lastO prev w) = true)
    (hpost : isWordO post.head? = false)
    (hg : 2 * w.length + 4 ≤ g) :
    (lastO prev w, post)
      ∈ endsF g (.cat (.star letterCls) (.cat .wb (rcat []))) prev (w ++ post) := by
  obtain ⟨g', rfl⟩ : ∃ h, g = h + 1 := ⟨g - 1, by omega⟩
  simp only [endsF, rcat]
  refine List.mem_flatMap.mpr ⟨(lastO prev w, post), ?_, ?_⟩
  · exact star_letters_mem w post prev g' hw (by omega)
  · obtain ⟨g2, rfl⟩ : ∃ h, g' = h + 1 := ⟨g' - 1, by omega⟩
    simp only [endsF]
    refine List.mem_flatMap.mpr ⟨(lastO prev w, post), ?_, ?_⟩
    · obtain ⟨g3, rfl⟩ : ∃ h, g2 = h + 1 := ⟨g2 - 1, by omega⟩
      have hb : atBoundary (lastO prev w) post = true := by
        unfold atBoundary
        rw [hword, hpost]
        rfl
      simp only [endsF, hb, if_true]
      exact List.mem_singleton_self _
    · obtain ⟨g3, rfl⟩ : ∃ h, g2 = h + 1 := ⟨g2 - 1, by omega⟩
      simp only [endsF]
      exact List.mem_singleton_self _

/-- GRAMMAR_2's whole pattern matches at the start of a letter run of length
at least five that is bounded by non-word characters (or text edges). -/
lemma g2_mem (w post : List Char) (prev : Option Char) (g : Nat)
    (hw : ∀ c ∈ w, isLetterAZ c = true) (hw5 : 5 ≤ w.length)
    (hprev : isWordO prev = false) (hpost : isWordO post.head? = false)
    (hg : 2 * w.length + 20 ≤ g) :
    ∃ st ∈ endsF g rGRAMMAR2.regex prev (w ++ post), st.2 = post := by
  obtain ⟨c1, w1, rfl⟩ : ∃ c w1, w = c :: w1 := by
    cases w with
    | nil => simp at hw5
    | cons a b => exact ⟨a, b, rfl⟩
  obtain ⟨c2, w2, rfl⟩ : ∃ c w2, w1 = c :: w2 := by
    cases w1 with
    | nil => simp at hw5
    | cons a b => exact ⟨a, b, rfl⟩
  obtain ⟨c3, w3, rfl⟩ : ∃ c w3, w2 = c :: w3 := by
    cases w2 with
    | nil => simp at hw5
    | cons a b => exact ⟨a, b, rfl⟩
  obtain ⟨c4, w4, rfl⟩ : ∃ c w4, w3 = c :: w4 := by
    cases w3 with
    | nil => simp at hw5
    | cons a b => exact ⟨a, b, rfl⟩
  obtain ⟨c5, w5, rfl⟩ : ∃ c w5, w4 = c :: w5 := by
    cases w4 with
    | nil => simp at hw5
    | cons a b => exact ⟨a, b, rfl⟩
  have h1 : isLetterAZ c1 = true := hw c1 (by simp)
  have h2 : isLetterAZ c2 = true := hw c2 (by simp)
  have h3 : isLetterAZ c3 = true := hw c3 (by simp)
  have h4 : isLetterAZ c4 = true := hw c4 (by simp)
  have h5 : isLetterAZ c5 = true := hw c5 (by simp)
  have hw5' : ∀ c ∈ w5, isLetterAZ c = true := fun c hc => hw c (by simp [hc])
  have hlen : w5.length + 5 = (c1 :: c2 :: c3 :: c4 :: c5 :: w5).length := by simp
  refine ⟨(lastO (some c5) w5, post), ?_, rfl⟩
  show (lastO (some c5) w5, post)
      ∈ endsF g (rcat [.wb, letterCls, letterCls, letterCls, letterCls, letterCls,
          .star letterCls, .wb]) prev ((c1 :: c2 :: c3 :: c4 :: c5 :: w5) ++ post)
  simp only [rcat, List.cons_append]
  obtain ⟨g1, rfl⟩ : ∃ h, g = h + 1 := ⟨g - 1, by omega⟩
  simp only [endsF]
  refine List.mem_flatMap.mpr ⟨(prev, c1 :: c2 :: c3 :: c4 :: c5 :: (w5 ++ post)), ?_, ?_⟩
  · obtain ⟨g2, rfl⟩ : ∃ h, g1 = h + 1 := ⟨g1 - 1, by omega⟩
    have hb : atBoundary prev (c1 :: c2 :: c3 :: c4 :: c5 :: (w5 ++ post)) = true := by
      unfold atBoundary
      rw [hprev]
      show (false != isWordO (some c1)) = true
      rw [show isWordO (some c1) = true from word_of_letter h1]
      rfl
    simp only [endsF, hb, if_true]
    exact List.mem_singleton_self _
  · obtain ⟨g2, rfl⟩ : ∃ h, g1 = h + 1 := ⟨g1 - 1, by omega⟩
    simp only [endsF]
    refine List.mem_flatMap.mpr ⟨(some c1, c2 :: c3 :: c4 :: c5 :: (w5 ++ post)), ?_, ?_⟩
    · obtain ⟨g3, rfl⟩ : ∃ h, g2 = h + 1 := ⟨g2 - 1, by omega⟩
      simp only [letterCls, endsF, h1, if_true]
      exact List.mem_singleton_self _
    · obtain ⟨g3, rfl⟩ : ∃ h, g2 = h + 1 := ⟨g2 - 1, by omega⟩
      simp only [endsF]
      refine List.mem_flatMap.mpr ⟨(some c2, c3 :: c4 :: c5 :: (w5 ++ post)), ?_, ?_⟩
      · obtain ⟨g4, rfl⟩ : ∃ h, g3 = h + 1 := ⟨g3 - 1, by omega⟩
        simp only [letterCls, endsF, h2, if_true]
        exact List.mem_singleton_self _
      · obtain ⟨g4, rfl⟩ : ∃ h, g3 = h + 1 := ⟨g3 - 1, by omega⟩
        simp only [endsF]
        refine List.mem_flatMap.mpr ⟨(some c3, c4 :: c5 :: (w5 ++ post)), ?_, ?_⟩
        · obtain ⟨g5, rfl⟩ : ∃ h, g4 = h + 1 := ⟨g4 - 1, by omega⟩
          simp only [letterCls, endsF, h3, if_true]
          exact List.mem_singleton_self _
        · obtain ⟨g5, rfl⟩ : ∃ h, g4 = h + 1 := ⟨g4 - 1, by omega⟩
          simp only [endsF]
          refine List.mem_flatMap.mpr ⟨(some c4, c5 :: (w5 ++ post)), ?_, ?_⟩
          · obtain ⟨g6, rfl⟩ : ∃ h, g5 = h + 1 := ⟨g5 - 1, by omega⟩
            simp only [letterCls, endsF, h4, if_true]
            exact List.mem_singleton_self _
          · obtain ⟨g6, rfl⟩ : ∃ h, g5 = h + 1 := ⟨g5 - 1, by omega⟩
            simp only [endsF]
            refine List.mem_flatMap.mpr ⟨(some c5, w5 ++ post), ?_, ?_⟩
            · obtain ⟨g7, rfl⟩ : ∃ h, g6 = h + 1 := ⟨g6 - 1, by omega⟩
              simp only [letterCls, endsF, h5, if_true]
              exact List.mem_singleton_self _
            · exact g2_tail_mem w5 post (some c5) g6 hw5'
                (isWordO_lastO_letters c5 w5 h5 hw5') hpost (by simp at hg; omega)

/-- If the pattern matches at the state reached after walking `pre`, the
left-to-right scan finds some match. -/
lemma searchAux_isSome : ∀ (pre : List Char) (prev : Option Char) (rest : List Char)
    (fuel : Nat) (re : RE),
    endsF fuel re (lastO prev pre) rest ≠ [] →
    (searchAux fuel re prev (pre ++ rest)).isSome = true
  | [], prev, rest, fuel, re, h => by
    have h' : endsF fuel re prev rest ≠ [] := by
      simpa [lastO] using h
    rw [List.nil_append]
    cases rest with
    | nil =>
      unfold searchAux
      cases he : endsF fuel re prev [] with
      | nil => exact absurd he h'
      | cons st l => simp
    | cons d r' =>
      unfold searchAux
      cases he : endsF fuel re prev (d :: r') with
      | nil => exact absurd he h'
      | cons st l => simp
  | c :: pre, prev, rest, fuel, re, h => by
    rw [List.cons_append]
    unfold searchAux
    cases he : endsF fuel re prev (c :: (pre ++ rest)) with
    | cons st l => simp
    | nil =>
      exact searchAux_isSome pre (some c) rest fuel re (by rwa [lastO_cons] at h)


/-- Splitting the per-rule weight sum at one rule, given distinct ids. -/
lemma sum_split_rule : ∀ (l : List AnalysisRule), ((l.map fun q => q.id).Nodup) →
    ∀ (r : AnalysisRule), r ∈ l → ∀ (f : AnalysisRule → Nat),
    (l.map f).sum = f r + (l.map fun q => if q.id = r.id then 0 else f q).sum
  | [], _, r, hr, _ => absurd hr (List.not_mem_nil r)
  | a :: l, hnd, r, hr, f => by
    rcases List.mem_cons.mp hr with rfl | hr'
    · have hmap : (l.map fun q => if q.id = r.id then 0 else f q) = l.map f := by
        apply List.map_congr_left
        intro q hq
        rw [if_neg]
        intro he
        apply (List.nodup_cons.mp hnd).1
        have h2 := List.mem_map_of_mem (fun q => q.id) hq
        simp only at h2 ⊢
        rw [← he]
        exact h2
      rw [List.map_cons, List.sum_cons, List.map_cons, List.sum_cons, hmap, if_pos rfl]
      omega
    · have hne : a.id ≠ r.id := by
        intro he
        apply (List.nodup_cons.mp hnd).1
        have h2 := List.mem_map_of_mem (fun q => q.id) hr'
        simp only at h2 ⊢
        rw [he]
        exact h2
      simp only [List.map_cons, List.sum_cons, if_neg hne]
      rw [sum_split_rule l (List.nodup_cons.mp hnd).2 r hr' f]
      omega

/-- A successful scan from position 0 makes `test` return `true`. -/
lemma testR_true_of_search (re : RE) (s : List Char)
    (h : (searchAux (matchFuel re s) re none s).isSome = true) :
    (testR re s 0).1 = true := by
  show (match searchAux (matchFuel re s) re none s with
        | some remaining => (true, s.length - remaining)
        | none => ((false : Bool), 0)).1 = true
  cases hs : searchAux (matchFuel re s) re none s with
  | some n => rfl
  | none =>
    rw [hs] at h
    simp at h

/-- The window hypothesis on the original text makes GRAMMAR_2's test fire
from fresh state: lowercasing preserves the letter run and its non-word
delimiters, the pattern matches there, and the scan finds it. -/
lemma fired0_g2 (t : String) (pre w post : List Char)
    (hsplit : t.data = pre ++ (w ++ post))
    (hw : ∀ c ∈ w, isLetterAZ c = true) (hw5 : 5 ≤ w.length)
    (hpre : isWordO pre.getLast? = false)
    (hpost : isWordO post.head? = false) :
    fired0 t rGRAMMAR2 = true := by
  have hsplit' : lowerData t
      = (pre.map lowerChar) ++ ((w.map lowerChar) ++ (post.map lowerChar)) := by
    unfold lowerData
    rw [hsplit, List.map_append, List.map_append]
  have hw' : ∀ c ∈ w.map lowerChar, isLetterAZ c = true := by
    intro c hc
    obtain ⟨d, hd, rfl⟩ := List.mem_map.mp hc
    rw [lowerChar_isLetter]
    exact hw d hd
  have hw5' : 5 ≤ (w.map lowerChar).length := by simpa using hw5
  have hpre' : isWordO (lastO none (pre.map lowerChar)) = false := by
    unfold lastO
    cases hl : (pre.map lowerChar).getLast? with
    | none => rfl
    | some c =>
      rw [List.getLast?_map] at hl
      obtain ⟨d, hd, rfl⟩ := Option.map_eq_some'.mp hl
      show isWordChar (lowerChar d) = false
      rw [lowerChar_isWord]
      rw [hd] at hpre
      exact hpre
  have hpost' : isWordO (post.map lowerChar).head? = false := by
    rw [List.head?_map, isWordO_map_lower]
    exact hpost
  have hlen : (w.map lowerChar).length ≤ (lowerData t).length := by
    rw [hsplit']
    simp [List.length_append]
    omega
  have hfuel : 2 * (w.map lowerChar).length + 20
      ≤ matchFuel rGRAMMAR2.regex (lowerData t) := by
    unfold matchFuel
    rw [show reSize rGRAMMAR2.regex = 18 from rfl]
    simp only [List.length_map] at hlen ⊢
    omega
  obtain ⟨st, hst, -⟩ := g2_mem (w.map lowerChar) (post.map lowerChar)
      (lastO none (pre.map lowerChar)) (matchFuel rGRAMMAR2.regex (lowerData t))
      hw' hw5' hpre' hpost' hfuel
  have hsome := searchAux_isSome (pre.map lowerChar) none
      ((w.map lowerChar) ++ (post.map lowerChar))
      (matchFuel rGRAMMAR2.regex (lowerData t)) rGRAMMAR2.regex
      (List.ne_nil_of_mem hst)
  unfold fired0
  apply testR_true_of_search
  rw [hsplit'] at hsome ⊢
  exact hsome

/-- **C10**  Every input text containing a word of five or more consecutive
Latin letters — of any capitalization, delimited by non-word characters or
the text's edges — makes rule GRAMMAR_2 (the excessive-capitals rule
`[A-Z]{5,}` with the `i` flag, applied to the lowercased text) fire: its
test returns true, one Bad Grammar evidence entry is recorded, and its
weight 5 enters the base sum. -/
theorem grammar2_matches_any_long_word (t : String) (pre w post : List Char)
    (hsplit : t.data = pre ++ (w ++ post))
    (hw : ∀ c ∈ w, isLetterAZ c = true) (hw5 : 5 ≤ w.length)
    (hpre : isWordO pre.getLast? = false)
    (hpost : isWordO post.head? = false) :
    fired0 t rGRAMMAR2 = true
    ∧ (⟨rGRAMMAR2.reason, Category.badGrammar, "GRAMMAR_2"⟩ : Flag)
        ∈ (performAdvancedHeuristicAnalysis t freshState).foundFlags
    ∧ heurBase t freshState
      = 5 + (advancedAnalysisRules.map fun r =>
          if r.id = "GRAMMAR_2" then 0 else if fired0 t r then r.weight else 0).sum := by
  have hf := fired0_g2 t pre w post hsplit hw hw5 hpre hpost
  have hmem : rGRAMMAR2 ∈ advancedAnalysisRules := by
    unfold advancedAnalysisRules
    iterate 15 apply List.mem_cons_of_mem
    exact List.mem_cons_self _ _
  refine ⟨hf, ?_, ?_⟩
  · rw [perform_flags_eq]
    refine List.mem_map.mpr ⟨(rGRAMMAR2, 0), ?_, rfl⟩
    refine List.mem_filter.mpr ⟨?_, hf⟩
    rw [zip_fresh]
    exact List.mem_map.mpr ⟨rGRAMMAR2, hmem, rfl⟩
  · rw [heurBase_fresh,
      sum_split_rule advancedAnalysisRules rules_ids_nodup rGRAMMAR2 hmem
        (fun r => if fired0 t r then r.weight else 0)]
    rw [if_pos hf]
    rfl

/-- Witness for `grammar2_matches_any_long_word` at the input `"hello"`
(the whole text is one five-letter word, both window sides are text
edges). -/
theorem grammar2_matches_any_long_word_witness :
    ("hello".data = ([] : List Char) ++ ("hello".data ++ []))
    ∧ (fired0 "hello" rGRAMMAR2 = true
      ∧ (⟨rGRAMMAR2.reason, Category.badGrammar, "GRAMMAR_2"⟩ : Flag)
          ∈ (performAdvancedHeuristicAnalysis "hello" freshState).foundFlags
      ∧ heurBase "hello" freshState
        = 5 + (advancedAnalysisRules.map fun r =>
            if r.id = "GRAMMAR_2" then 0
            else if fired0 "hello" r then r.weight else 0).sum) :=
  ⟨by simp, grammar2_matches_any_long_word "hello" [] "hello".data [] (by simp)
    (by decide) (by decide) (by decide) (by decide)⟩

end PhishGuard


